import Mathlib

/-
Shallow embedding of the baseball trajectory engine (utils/physics.ts):
the batted-ball integrator calculateTrajectory, the pitch integrator
calculatePitchTrajectory, and the inverse-kinematics angle solver
solvePitchAngles, together with the line-segment intersection helper and
the wall geometry.

Number model: the source computes with IEEE-754 double precision.  We model
numbers as rationals, with every integration-step result rounded to the
fixed grid of multiples of 2 ^ (-40) (fpRound), and Math.sqrt modelled as
the grid-rounded-down square root (mySqrt, via Nat.sqrt).  Math.sin,
Math.cos and Math.atan are modelled by truncated Maclaurin polynomials,
Math.PI by its exact double value.  Division by zero yields 0 in Lean
(the source never divides by zero on the paths the theorems speak about;
where the guard in the source is an object-truthiness or NaN check we keep
the equivalent explicit branch).

The while loops of the source are bounded by their time caps; we run them
on an explicit fuel counter, returning none when fuel runs out, and prove
that the fuel bound suffices for every input (claim C1).
-/

namespace Baseball

unseal Rat.add Rat.mul Rat.sub Rat.inv

/-- Structurally recursive integer square root (fuel is the recursion depth;
each level divides the argument by 4, so fuel f covers inputs below 4 ^ f). -/
def isqrtAux : Nat → Nat → Nat
  | 0, _ => 0
  | f + 1, n =>
    if n = 0 then 0
    else
      let r := 2 * isqrtAux f (n / 4)
      if (r + 1) * (r + 1) ≤ n then r + 1 else r

/-- Integer square root on naturals below 4 ^ 400. -/
def natSqrt (n : Nat) : Nat := isqrtAux 400 n

/-- Fixed-point grid used to model double rounding: multiples of 2 ^ (-40). -/
def prec : ℚ := 1099511627776

/-- Round to nearest grid point (ties toward plus infinity), modelling the
rounding that IEEE doubles perform after every arithmetic operation. -/
def fpRound (q : ℚ) : ℚ := mkRat (Rat.floor (q * prec + 1/2)) 1099511627776

/-- Model of Math.sqrt: round the radicand onto the squared grid and take the
integer square root; exact whenever the true root lies on the grid. -/
def mySqrt (q : ℚ) : ℚ :=
  mkRat (Int.ofNat (natSqrt (Rat.floor (q * prec * prec)).toNat)) 1099511627776

/-- Model of Math.abs. -/
def myAbs (q : ℚ) : ℚ := if q < 0 then -q else q

/-- The exact value of the IEEE double Math.PI. -/
def myPi : ℚ := 884279719003555 / 281474976710656

/-- Truncated Maclaurin series for sine, degree 13. -/
def sinPoly (x : ℚ) : ℚ :=
  x - x ^ 3 / 6 + x ^ 5 / 120 - x ^ 7 / 5040 + x ^ 9 / 362880
    - x ^ 11 / 39916800 + x ^ 13 / 6227020800

/-- Model of Math.sin. -/
def mySin (x : ℚ) : ℚ := fpRound (sinPoly x)

/-- Truncated Maclaurin series for cosine, degree 12. -/
def cosPoly (x : ℚ) : ℚ :=
  1 - x ^ 2 / 2 + x ^ 4 / 24 - x ^ 6 / 720 + x ^ 8 / 40320
    - x ^ 10 / 3628800 + x ^ 12 / 479001600

/-- Model of Math.cos. -/
def myCos (x : ℚ) : ℚ := fpRound (cosPoly x)

/-- Truncated Maclaurin series for arctangent, used on arguments of absolute
value at most about 0.42 after the half-angle reduction. -/
def atanSmall (u : ℚ) : ℚ :=
  u - u ^ 3 / 3 + u ^ 5 / 5 - u ^ 7 / 7 + u ^ 9 / 9
    - u ^ 11 / 11 + u ^ 13 / 13 - u ^ 15 / 15 + u ^ 17 / 17 - u ^ 19 / 19

/-- Model of Math.atan via the half-angle identity. -/
def myAtan (u : ℚ) : ℚ := fpRound (2 * atanSmall (u / (1 + mySqrt (1 + u ^ 2))))

/-- Model of Math.atan2 with the usual quadrant corrections. -/
def myAtan2 (y x : ℚ) : ℚ :=
  if 0 < x then myAtan (y / x)
  else if x < 0 then (if 0 ≤ y then myAtan (y / x) + myPi else myAtan (y / x) - myPi)
  else if 0 < y then myPi / 2
  else if y < 0 then -(myPi / 2)
  else 0

/-! Constants of the engine (verbatim from the source). -/

def GRAVITY : ℚ := 981 / 100

def AIR_DENSITY : ℚ := 49 / 40

def BALL_MASS : ℚ := 29 / 200

def BALL_RADIUS : ℚ := 37 / 1000

def BALL_AREA : ℚ := myPi * BALL_RADIUS ^ 2

def DRAG_COEFFICIENT : ℚ := 3 / 10

def BATTING_LIFT_COEFFICIENT : ℚ := 3 / 20

def MOUND_DISTANCE : ℚ := 461 / 25

def CATCHER_DEPTH : ℚ := 3 / 2

def WALL_HEIGHT : ℚ := 4

def COR_GROUND : ℚ := 9 / 20

def COR_WALL : ℚ := 7 / 10

def STOP_VELOCITY : ℚ := 1 / 10

def FRICTION_BOUNCE : ℚ := 23 / 25

def MU_ROLLING : ℚ := 1 / 4

/-- One linear wall segment of the outfield fence, in the x-z plane. -/
structure WallSeg where
  x1 : ℚ
  z1 : ℚ
  x2 : ℚ
  z2 : ℚ
deriving DecidableEq, Repr

/-- The four fence segments, foul pole to foul pole. -/
def WALL_SEGMENTS : List WallSeg :=
  [⟨-7071/100, 7071/100, -421/10, 508/5⟩,
   ⟨-421/10, 508/5, 0, 122⟩,
   ⟨0, 122, 421/10, 508/5⟩,
   ⟨421/10, 508/5, 7071/100, 7071/100⟩]

/-- A sample of the flight path; breakX and breakY are only populated by the
pitch integrator (in centimetres). -/
structure Point3 where
  x : ℚ
  y : ℚ
  z : ℚ
  t : ℚ
  breakX : Option ℚ := none
  breakY : Option ℚ := none
deriving DecidableEq, Repr

/-- The result record produced by both integrators. -/
structure TrajectoryResult where
  points : List Point3
  distance : ℚ
  maxHeight : ℚ
  hangTime : ℚ
  landingPosition : Option (ℚ × ℚ × ℚ) := none
  finalPosition : Option (ℚ × ℚ) := none
  plateCrossing : Option (ℚ × ℚ) := none
deriving DecidableEq, Repr

/-- Parameter record of the pitch integrator and the angle solver. -/
structure PitchingParams where
  velocity : ℚ
  spinRate : ℚ
  spinDirection : ℚ
  spinEfficiency : ℚ
  hAngle : ℚ
  vAngle : ℚ
  releaseHeight : ℚ
  releaseSide : ℚ
  extension : ℚ
  targetX : ℚ
  targetY : ℚ
  gyroDegree : ℚ
deriving DecidableEq, Repr

/-- Parametric segment-segment intersection (getLineIntersection in the
source).  The source divides by the determinant and relies on NaN or
infinity failing the 0 ≤ s ≤ 1 tests when the segments are parallel; we make
that exit explicit. -/
def getLineIntersection (p0x p0y p1x p1y p2x p2y p3x p3y : ℚ) : Option (ℚ × ℚ) :=
  let s1x := p1x - p0x
  let s1y := p1y - p0y
  let s2x := p3x - p2x
  let s2y := p3y - p2y
  let den := -s2x * s1y + s1x * s2y
  if den = 0 then none
  else
    let s := (-s1y * (p0x - p2x) + s1x * (p0y - p2y)) / den
    let t := (s2x * (p0y - p2y) - s2y * (p0x - p2x)) / den
    if 0 ≤ s ∧ s ≤ 1 ∧ 0 ≤ t ∧ t ≤ 1 then some (p0x + t * s1x, p0y + t * s1y)
    else none

/-! ## Batted-ball integrator -/

/-- Mutable state of the batting while loop. -/
structure BatState where
  x : ℚ
  y : ℚ
  z : ℚ
  t : ℚ
  vx : ℚ
  vy : ℚ
  vz : ℚ
  maxHeight : ℚ
  carryDistance : ℚ
  landing : Option (ℚ × ℚ × ℚ)
  hasHitGround : Bool
deriving DecidableEq, Repr

/-- Batting time step (0.01 s). -/
def dtB : ℚ := 1 / 100

/-- Batting time cap (20 s). -/
def batMaxTime : ℚ := 20

/-- Inward unit normal of a wall segment: rotate the segment direction by 90
degrees, then flip if it points away from the origin side. -/
def segNormal (seg : WallSeg) : ℚ × ℚ :=
  let dx := seg.x2 - seg.x1
  let dz := seg.z2 - seg.z1
  let len := mySqrt (dx ^ 2 + dz ^ 2)
  let nx := -dz / len
  let nz := dx / len
  let midX := (seg.x1 + seg.x2) / 2
  let midZ := (seg.z1 + seg.z2) / 2
  if nx * midX + nz * midZ > 0 then (-nx, -nz) else (nx, nz)

/-- Resolve a confirmed intersection with one wall segment: reflect the
horizontal velocity about the inward normal scaled by the wall restitution,
dampen the vertical velocity, and push the ball off the wall. -/
def wallApply (s : BatState) (seg : WallSeg) (ip : ℚ × ℚ) : BatState :=
  let n := segNormal seg
  let vDotN := s.vx * n.1 + s.vz * n.2
  if vDotN < 0 then
    { s with
      vx := (s.vx - 2 * vDotN * n.1) * COR_WALL,
      vz := (s.vz - 2 * vDotN * n.2) * COR_WALL,
      vy := s.vy * (8/10),
      x := ip.1 + n.1 * (1/5),
      z := ip.2 + n.2 * (1/5) }
  else s

/-- Walk the wall segments in order; the first one whose segment intersects
the motion segment is handled and the scan stops (the break in the source),
whether or not the velocity check fires. -/
def wallScan (prevX prevZ : ℚ) (s : BatState) (segs : List WallSeg) : BatState :=
  match segs.findSome? (fun seg =>
      (getLineIntersection prevX prevZ s.x s.z seg.x1 seg.z1 seg.x2 seg.z2).map
        (fun ip => (seg, ip))) with
  | none => s
  | some (seg, ip) => wallApply s seg ip

/-- Aerodynamics plus explicit-Euler integration of one batting step:
max-height bookkeeping, drag and simplified lift when the airspeed exceeds
0.1 m/s, gravity, then velocity and position updates. -/
def batIntegrate (wx wz : ℚ) (s : BatState) : BatState :=
  let maxH := if s.y > s.maxHeight then s.y else s.maxHeight
  let vrx := s.vx - wx
  let vry := s.vy - 0
  let vrz := s.vz - wz
  let vRelTotal := mySqrt (vrx ^ 2 + vry ^ 2 + vrz ^ 2)
  let acc :=
    if vRelTotal > 1/10 then
      let fd := (1/2) * AIR_DENSITY * vRelTotal ^ 2 * DRAG_COEFFICIENT * BALL_AREA
      let ad := fd / BALL_MASS
      let axDrag := -ad * (vrx / vRelTotal)
      let ayDrag := -ad * (vry / vRelTotal)
      let azDrag := -ad * (vrz / vRelTotal)
      let ayLift :=
        if s.y > 1/20 then
          let fl := (1/2) * AIR_DENSITY * vRelTotal ^ 2 * BATTING_LIFT_COEFFICIENT * BALL_AREA
          let al := fl / BALL_MASS
          let vHorizontal := mySqrt (s.vx ^ 2 + s.vz ^ 2)
          let vTotal := mySqrt (vHorizontal ^ 2 + s.vy ^ 2)
          if vTotal > 0 then al * (vHorizontal / vTotal) else 0
        else 0
      (axDrag, -GRAVITY + ayDrag + ayLift, azDrag)
    else ((0 : ℚ), -GRAVITY, (0 : ℚ))
  let vx1 := fpRound (s.vx + acc.1 * dtB)
  let vy1 := fpRound (s.vy + acc.2.1 * dtB)
  let vz1 := fpRound (s.vz + acc.2.2 * dtB)
  { s with
    vx := vx1, vy := vy1, vz := vz1,
    x := fpRound (s.x + vx1 * dtB),
    y := fpRound (s.y + vy1 * dtB),
    z := fpRound (s.z + vz1 * dtB),
    t := s.t + dtB,
    maxHeight := maxH }

/-- Ground collision handling: clamp to the ground, freeze the carry distance
and landing position on first contact, then roll (with kinetic friction and
the stop test, the Bool result indicating the break) or bounce. -/
def groundPhase (s : BatState) : BatState × Bool :=
  if s.y ≤ 0 then
    let s0 := { s with y := 0 }
    let s1 :=
      if s0.hasHitGround then s0
      else { s0 with
              hasHitGround := true,
              carryDistance := mySqrt (s0.x ^ 2 + s0.z ^ 2),
              landing := some (s0.x, 0, s0.z) }
    if myAbs s1.vy < 1 then
      let s2 := { s1 with vy := 0 }
      let speedXZ := mySqrt (s2.vx ^ 2 + s2.vz ^ 2)
      if speedXZ > 0 then
        let speedLoss := MU_ROLLING * GRAVITY * dtB
        if speedXZ ≤ speedLoss + STOP_VELOCITY then
          ({ s2 with vx := 0, vz := 0 }, true)
        else
          let ratio := (speedXZ - speedLoss) / speedXZ
          ({ s2 with vx := s2.vx * ratio, vz := s2.vz * ratio }, false)
      else (s2, true)
    else
      ({ s1 with vy := -s1.vy * COR_GROUND,
                 vx := s1.vx * FRICTION_BOUNCE,
                 vz := s1.vz * FRICTION_BOUNCE }, false)
  else (s, false)

/-- Integration followed by the gated wall test: the wall is tested only
beyond 60 m depth and with the ball between ground level and the wall top. -/
def batWallGate (wx wz : ℚ) (s : BatState) : BatState :=
  let s1 := batIntegrate wx wz s
  if s1.z > 60 ∧ 0 ≤ s1.y ∧ s1.y ≤ WALL_HEIGHT
  then wallScan s.x s.z s1 WALL_SEGMENTS else s1

/-- One full iteration of the batting while loop body (after the sample was
pushed): integrate, test the wall, then handle the ground.  The Bool records
the break. -/
def batStep (wx wz : ℚ) (s : BatState) : BatState × Bool :=
  groundPhase (batWallGate wx wz s)

/-- The state after one batting loop iteration, break or not. -/
def batStepState (wx wz : ℚ) (s : BatState) : BatState := (batStep wx wz s).1

/-- The sample pushed at the top of the batting loop. -/
def batPoint (s : BatState) : Point3 := { x := s.x, y := s.y, z := s.z, t := s.t }

/-- The batting while loop on explicit fuel: returns the pushed samples and
the exit state, or none if fuel runs out (proved impossible at batFuel). -/
def batRunAux (wx wz : ℚ) : Nat → BatState → Option (List Point3 × BatState)
  | 0, _ => none
  | n + 1, s =>
    if s.t < batMaxTime then
      let p := batStep wx wz s
      if p.2 then some ([batPoint s], p.1)
      else (batRunAux wx wz n p.1).map (fun out => (batPoint s :: out.1, out.2))
    else some ([], s)

/-- Initial batting state: home plate, 0.5 m up, exit velocity decomposed by
launch angle and the negated spray angle. -/
def batInit (velocityKmh launchAngleDeg sprayAngleDeg : ℚ) : BatState :=
  let v0 := velocityKmh * (1000 / 3600)
  let theta := launchAngleDeg * (myPi / 180)
  let phi := -sprayAngleDeg * (myPi / 180)
  { x := 0, y := 1/2, z := 0, t := 0,
    vx := v0 * myCos theta * mySin phi,
    vy := v0 * mySin theta,
    vz := v0 * myCos theta * myCos phi,
    maxHeight := 1/2, carryDistance := 0, landing := none, hasHitGround := false }

/-- Wind vector x component (direction 0 blows toward plus z). -/
def windX (windSpeedMs windDirectionDeg : ℚ) : ℚ :=
  -windSpeedMs * mySin (windDirectionDeg * (myPi / 180))

/-- Wind vector z component. -/
def windZ (windSpeedMs windDirectionDeg : ℚ) : ℚ :=
  windSpeedMs * myCos (windDirectionDeg * (myPi / 180))

/-- Fuel bound for the batting loop: 2000 iterations reach the 20 s cap. -/
def batFuel : Nat := 2001

/-- Fallback result for the provably unreachable out-of-fuel branch. -/
def emptyResult : TrajectoryResult :=
  { points := [], distance := 0, maxHeight := 0, hangTime := 0 }

/-- The final state of a batting run (observer used by the theorems). -/
def batFinal (velocityKmh launchAngleDeg sprayAngleDeg windSpeedMs windDirectionDeg : ℚ) :
    BatState :=
  match batRunAux (windX windSpeedMs windDirectionDeg) (windZ windSpeedMs windDirectionDeg)
      batFuel (batInit velocityKmh launchAngleDeg sprayAngleDeg) with
  | some out => out.2
  | none => batInit velocityKmh launchAngleDeg sprayAngleDeg

/-- calculateTrajectory: run the batting loop, then report the carry distance
(of the first ground contact, or of the truncation point if the ground was
never hit), max height, hang time and landing position. -/
def calculateTrajectory
    (velocityKmh launchAngleDeg sprayAngleDeg windSpeedMs windDirectionDeg : ℚ) :
    TrajectoryResult :=
  match batRunAux (windX windSpeedMs windDirectionDeg) (windZ windSpeedMs windDirectionDeg)
      batFuel (batInit velocityKmh launchAngleDeg sprayAngleDeg) with
  | some out =>
    { points := out.1,
      distance := if out.2.hasHitGround then out.2.carryDistance
                  else mySqrt (out.2.x ^ 2 + out.2.z ^ 2),
      maxHeight := out.2.maxHeight,
      hangTime := out.2.t,
      landingPosition := out.2.landing }
  | none => emptyResult

/-! ## Pitch integrator -/

/-- Mutable state of the pitching while loop. -/
structure PitchState where
  x : ℚ
  y : ℚ
  z : ℚ
  t : ℚ
  vx : ℚ
  vy : ℚ
  vz : ℚ
  vBreakX : ℚ
  vBreakY : ℚ
  curBreakX : ℚ
  curBreakY : ℚ
  maxHeight : ℚ
  plateCrossing : Option (ℚ × ℚ)
deriving DecidableEq, Repr

/-- Pitching time step (0.002 s). -/
def dtP : ℚ := 1 / 500

/-- The sample pushed by the pitching loop, with break values in cm. -/
def pitchPoint (s : PitchState) : Point3 :=
  { x := s.x, y := s.y, z := s.z, t := s.t,
    breakX := some (s.curBreakX * 100), breakY := some (s.curBreakY * 100) }

/-- One physics step of the pitch: drag, Magnus force from the spin axis,
gravity, break accumulators, Euler update, and the plate-crossing
interpolation whenever z passes from nonnegative to negative. -/
def pitchStep (omega spinDirection : ℚ) (s : PitchState) : PitchState :=
  let vTotal := mySqrt (s.vx ^ 2 + s.vy ^ 2 + s.vz ^ 2)
  let fd := (1/2) * AIR_DENSITY * vTotal ^ 2 * DRAG_COEFFICIENT * BALL_AREA
  let ad := fd / BALL_MASS
  let axDrag := -ad * (s.vx / vTotal)
  let ayDrag := -ad * (s.vy / vTotal)
  let azDrag := -ad * (s.vz / vTotal)
  let sf := (BALL_RADIUS * omega) / vTotal
  let liftForceMag := (1/2) * AIR_DENSITY * vTotal ^ 2 * BALL_AREA * sf
  let radAxis := spinDirection * (myPi / 180)
  let fMagX := liftForceMag * mySin radAxis
  let fMagY := liftForceMag * myCos radAxis
  let axMag := fMagX / BALL_MASS
  let ayMag := fMagY / BALL_MASS
  let ax := axDrag + axMag
  let ay := -GRAVITY + ayDrag + ayMag
  let az := azDrag
  let vBreakX1 := fpRound (s.vBreakX + axMag * dtP)
  let vBreakY1 := fpRound (s.vBreakY + ayMag * dtP)
  let curBreakX1 := fpRound (s.curBreakX + vBreakX1 * dtP)
  let curBreakY1 := fpRound (s.curBreakY + vBreakY1 * dtP)
  let vx1 := fpRound (s.vx + ax * dtP)
  let vy1 := fpRound (s.vy + ay * dtP)
  let vz1 := fpRound (s.vz + az * dtP)
  let x1 := fpRound (s.x + vx1 * dtP)
  let y1 := fpRound (s.y + vy1 * dtP)
  let z1 := fpRound (s.z + vz1 * dtP)
  let pc :=
    if s.z ≥ 0 ∧ z1 < 0 then
      let fraction := (0 - s.z) / (z1 - s.z)
      some (s.x + (x1 - s.x) * fraction, s.y + (y1 - s.y) * fraction)
    else s.plateCrossing
  { x := x1, y := y1, z := z1, t := s.t + dtP,
    vx := vx1, vy := vy1, vz := vz1,
    vBreakX := vBreakX1, vBreakY := vBreakY1,
    curBreakX := curBreakX1, curBreakY := curBreakY1,
    maxHeight := s.maxHeight, plateCrossing := pc }

/-- The pitching while loop on explicit fuel: push the sample, update the max
height, break on the 5 s failsafe or on hitting the ground, otherwise step;
the loop condition is z above the catcher depth. -/
def pitchRunAux (omega spinDirection : ℚ) :
    Nat → PitchState → Option (List Point3 × PitchState)
  | 0, _ => none
  | n + 1, s =>
    if s.z > -CATCHER_DEPTH then
      let sm := { s with maxHeight := if s.y > s.maxHeight then s.y else s.maxHeight }
      if s.t > 5 then some ([pitchPoint s], sm)
      else if s.y ≤ 0 then some ([pitchPoint s], sm)
      else (pitchRunAux omega spinDirection n (pitchStep omega spinDirection sm)).map
        (fun out => (pitchPoint s :: out.1, out.2))
    else some ([], s)

/-- The max-height bookkeeping state of the top of the pitch loop. -/
def pitchMaxUpd (s : PitchState) : PitchState :=
  { s with maxHeight := if s.y > s.maxHeight then s.y else s.maxHeight }

/-- Linear interpolation of the x and y coordinates at z = 0 between two
states or samples, exactly as the plate-crossing code computes it. -/
def lerpZ0 (ax ay az bx bycoord bz : ℚ) : ℚ × ℚ :=
  let fraction := (0 - az) / (bz - az)
  (ax + (bx - ax) * fraction, ay + (bycoord - ay) * fraction)

/-- The interpolated value of the last plate crossing (a pair of consecutive
samples whose z passes from nonnegative to negative) in a sample list, if
any crossing occurs. -/
def lastCrossing : List Point3 → Option (ℚ × ℚ)
  | [] => none
  | [_] => none
  | a :: b :: rest =>
    match lastCrossing (b :: rest) with
    | some c => some c
    | none => if a.z ≥ 0 ∧ b.z < 0 then some (lerpZ0 a.x a.y a.z b.x b.y b.z) else none

/-- Initial pitch state: release point offset from the mound by extension and
release side, velocity decomposed by the horizontal and vertical release
angles with the principal direction toward negative z. -/
def pitchInit (p : PitchingParams) : PitchState :=
  let v0 := p.velocity * (1000 / 3600)
  let hRad := p.hAngle * (myPi / 180)
  let vRad := p.vAngle * (myPi / 180)
  { x := p.releaseSide / 100,
    y := p.releaseHeight,
    z := MOUND_DISTANCE - p.extension / 100,
    t := 0,
    vx := v0 * mySin hRad * myCos vRad,
    vy := v0 * mySin vRad,
    vz := -(v0 * myCos hRad * myCos vRad),
    vBreakX := 0, vBreakY := 0, curBreakX := 0, curBreakY := 0,
    maxHeight := p.releaseHeight, plateCrossing := none }

/-- Fuel bound for the pitch loop: 2501 iterations pass the 5 s failsafe. -/
def pitchFuel : Nat := 2502

/-- The true-spin angular velocity in rad/s. -/
def pitchOmega (p : PitchingParams) : ℚ :=
  (p.spinRate * (p.spinEfficiency / 100)) * 2 * myPi / 60

/-- calculatePitchTrajectory: degenerate single-sample result for velocity at
most 0.1 km/h, otherwise run the loop, append the final sample, and report
depth travelled, hang time, final position and the plate crossing (falling
back to the final position when z never crossed 0). -/
def calculatePitchTrajectory (p : PitchingParams) : TrajectoryResult :=
  if p.velocity ≤ 1/10 then
    { points := [{ x := p.releaseSide / 100, y := p.releaseHeight,
                   z := MOUND_DISTANCE - p.extension / 100, t := 0,
                   breakX := some 0, breakY := some 0 }],
      distance := 0,
      maxHeight := p.releaseHeight,
      hangTime := 0,
      finalPosition := some (p.releaseSide / 100, p.releaseHeight),
      plateCrossing := some (p.releaseSide / 100, p.releaseHeight) }
  else
    match pitchRunAux (pitchOmega p) p.spinDirection pitchFuel (pitchInit p) with
    | some out =>
      { points := out.1 ++ [pitchPoint out.2],
        distance := MOUND_DISTANCE - out.2.z,
        maxHeight := out.2.maxHeight,
        hangTime := out.2.t,
        finalPosition := some (out.2.x, out.2.y),
        plateCrossing := some ((out.2.plateCrossing).getD (out.2.x, out.2.y)) }
    | none => emptyResult

/-! ## Angle solver -/

/-- The iterative corrector of solvePitchAngles: run the forward model, stop
when both plate errors are below half a millimetre (returning the angles
that were just verified), otherwise add error times the fixed gain 2.5. -/
def solveLoop (p : PitchingParams) (targetX targetY : ℚ) :
    Nat → ℚ → ℚ → ℚ × ℚ
  | 0, hAngle, vAngle => (hAngle, vAngle)
  | n + 1, hAngle, vAngle =>
    let r := calculatePitchTrajectory { p with hAngle := hAngle, vAngle := vAngle }
    match r.plateCrossing.orElse (fun _ => r.finalPosition) with
    | none => (hAngle, vAngle)
    | some crossing =>
      let errorX := targetX - crossing.1
      let errorY := targetY - crossing.2
      if myAbs errorX < 1/2000 ∧ myAbs errorY < 1/2000 then (hAngle, vAngle)
      else solveLoop p targetX targetY n (hAngle + errorX * (5/2)) (vAngle + errorY * (5/2))

/-- The closed-form straight-line initial guess for the horizontal angle. -/
def guessH (p : PitchingParams) (targetX : ℚ) : ℚ :=
  myAtan2 (targetX - p.releaseSide / 100) (461/25 - p.extension / 100) * (180 / myPi)

/-- The closed-form straight-line initial guess for the vertical angle. -/
def guessV (p : PitchingParams) (targetY : ℚ) : ℚ :=
  myAtan2 (targetY - p.releaseHeight) (461/25 - p.extension / 100) * (180 / myPi)

/-- solvePitchAngles: return the stored angles for degenerate velocity,
otherwise iterate the corrector at most 10 times from the geometric guess. -/
def solvePitchAngles (p : PitchingParams) (targetX targetY : ℚ) : ℚ × ℚ :=
  if p.velocity ≤ 1/10 then (p.hAngle, p.vAngle)
  else solveLoop p targetX targetY 10 (guessH p targetX) (guessV p targetY)

/-- Default sample used with List.getD. -/
def dflPoint : Point3 := ⟨0, 0, 0, 0, none, none⟩

/-- Pitch released just above the plate plane at extreme speed: the explicit
Euler drag step overshoots, so z oscillates and crosses 0 twice. -/
def c2Params : PitchingParams :=
  ⟨892800, 0, 0, 0, 900573/10000, 0, 18/10, 0, 1794, 0, 0, 0⟩

/-- A pitch state just above z = 0 moving toward the plate. -/
def c2wState : PitchState := ⟨0, 1, 1/1000, 0, 0, 0, -30, 0, 0, 0, 0, 1, none⟩

/-- A plain fastball released close to the plate. -/
def c2wParams : PitchingParams :=
  ⟨150, 0, 0, 0, 0, 0, 18/10, 0, 1843, 0, 0, 0⟩

/-- A wall segment of slope 3-4-5, so its length is exact under mySqrt. -/
def c7Seg : WallSeg := ⟨-3/2, 98, 3/2, 102⟩

/-- A ball just past the fence plane moving outward. -/
def c7State : BatState := ⟨0, 2, 105, 1, 0, -3, 50, 3, 0, none, false⟩

/-- A ball near the plate, far from the wall gate. -/
def c7GateState : BatState := ⟨0, 1, 0, 0, 10, 0, 10, 1, 0, none, false⟩

/-- A rolling ball driven by a strong tailwind. -/
def c8State : BatState := ⟨0, 0, 0, 0, 0, 0, 1, 1, 0, none, true⟩

/-- A rolling ball at unit speed, no wind. -/
def c8wRoll : BatState := ⟨0, 0, 50, 1, 1, 0, 0, 2, 50, none, true⟩

/-- A rolling ball below the stopping speed. -/
def c8wStop : BatState := ⟨0, 0, 50, 1, 1/10, 0, 0, 2, 50, none, true⟩

/-- The corrector iteration without the early tolerance exit: what the
solver computes when no iteration passes its tolerance check. -/
def solveSteps (p : PitchingParams) (targetX targetY : ℚ) :
    Nat → ℚ → ℚ → ℚ × ℚ
  | 0, hAngle, vAngle => (hAngle, vAngle)
  | n + 1, hAngle, vAngle =>
    let r := calculatePitchTrajectory { p with hAngle := hAngle, vAngle := vAngle }
    match r.plateCrossing.orElse (fun _ => r.finalPosition) with
    | none => (hAngle, vAngle)
    | some crossing =>
      solveSteps p targetX targetY n (hAngle + (targetX - crossing.1) * (5/2))
        (vAngle + (targetY - crossing.2) * (5/2))

/-- A pitch released 50 m behind the mound: the long flight makes the plate
position so sensitive to the angles that the fixed-gain corrector diverges. -/
def c3Params : PitchingParams :=
  ⟨5000, 0, 0, 0, 0, 0, 18/10, 0, -5000, 0, 0, 0⟩

/-- The plate crossing produced by c3Params with its stored angles. -/
def c3tg : ℚ × ℚ := (calculatePitchTrajectory c3Params).plateCrossing.getD (0, 0)

/-- The angles the solver returns for that crossing as the target. -/
def c3sv : ℚ × ℚ := solvePitchAngles c3Params c3tg.1 c3tg.2

/-- The forward run at the solver angles. -/
def c3rr : TrajectoryResult :=
  calculatePitchTrajectory { c3Params with hAngle := c3sv.1, vAngle := c3sv.2 }

/-- A plain fastball released close to the plate, slightly off centre. -/
def c3wParams : PitchingParams :=
  ⟨150, 0, 0, 0, 0, 0, 18/10, 10, 1843, 0, 0, 0⟩

/-! ## Helper lemmas -/

set_option maxRecDepth 8000000

set_option maxHeartbeats 80000000

/-- The wall scan never changes the clock. -/
theorem wallScan_t (a b : ℚ) (s : BatState) (l : List WallSeg) :
    (wallScan a b s l).t = s.t := by
  unfold wallScan
  cases l.findSome? (fun seg =>
      (getLineIntersection a b s.x s.z seg.x1 seg.z1 seg.x2 seg.z2).map
        (fun ip => (seg, ip))) with
  | none => rfl
  | some v =>
    simp only [wallApply]
    split <;> rfl

/-- Ground handling never changes the clock. -/
theorem groundPhase_t (s : BatState) : (groundPhase s).1.t = s.t := by
  simp only [groundPhase]
  split_ifs <;> rfl

/-- Integration advances the clock by exactly dtB. -/
theorem batIntegrate_t (wx wz : ℚ) (s : BatState) :
    (batIntegrate wx wz s).t = s.t + dtB := rfl

/-- One batting loop iteration advances the clock by exactly dtB. -/
theorem batStep_t (wx wz : ℚ) (s : BatState) : (batStep wx wz s).1.t = s.t + dtB := by
  unfold batStep
  rw [groundPhase_t]
  simp only [batWallGate]
  split <;> [rw [wallScan_t]; skip] <;> exact batIntegrate_t wx wz s

/-- Definitional unfolding of one batting loop iteration. -/
theorem batRunAux_succ (wx wz : ℚ) (n : Nat) (s : BatState) :
    batRunAux wx wz (n + 1) s =
      if s.t < batMaxTime then
        (if (batStep wx wz s).2 then some ([batPoint s], (batStep wx wz s).1)
         else (batRunAux wx wz n (batStep wx wz s).1).map
           (fun out => (batPoint s :: out.1, out.2)))
      else some ([], s) := rfl

/-- The batting loop exits within the fuel bound. -/
theorem batRunAux_total (wx wz : ℚ) :
    ∀ (n : Nat) (s : BatState), batMaxTime - s.t ≤ (n : ℚ) * dtB →
      (batRunAux wx wz (n + 1) s).isSome = true := by
  intro n
  induction n with
  | zero =>
    intro s h
    have ht : ¬ s.t < batMaxTime := by
      simp only [Nat.cast_zero, zero_mul] at h
      exact not_lt.2 (by linarith)
    rw [batRunAux_succ]
    simp [ht]
  | succ n ih =>
    intro s h
    rw [batRunAux_succ]
    by_cases ht : s.t < batMaxTime
    · rcases hb : (batStep wx wz s).2 with _ | _
      · have hnext : batMaxTime - (batStep wx wz s).1.t ≤ (n : ℚ) * dtB := by
          rw [batStep_t]
          push_cast at h ⊢
          have hdt : dtB = 1/100 := rfl
          rw [hdt] at h ⊢
          linarith
        have hrec := ih (batStep wx wz s).1 hnext
        simp [ht, hb, hrec]
      · simp [ht, hb]
    · simp [ht]

/-- One pitch step advances the clock by exactly dtP. -/
theorem pitchStep_t (omega spinDirection : ℚ) (s : PitchState) :
    (pitchStep omega spinDirection s).t = s.t + dtP := rfl

/-- Definitional unfolding of one pitch loop iteration. -/
theorem pitchRunAux_succ (omega spinDirection : ℚ) (n : Nat) (s : PitchState) :
    pitchRunAux omega spinDirection (n + 1) s =
      if s.z > -CATCHER_DEPTH then
        (if s.t > 5 then some ([pitchPoint s], pitchMaxUpd s)
         else if s.y ≤ 0 then some ([pitchPoint s], pitchMaxUpd s)
         else (pitchRunAux omega spinDirection n (pitchStep omega spinDirection (pitchMaxUpd s))).map
           (fun out => (pitchPoint s :: out.1, out.2)))
      else some ([], s) := rfl

/-- The pitch loop exits within the fuel bound. -/
theorem pitchRunAux_total (omega spinDirection : ℚ) :
    ∀ (n : Nat) (s : PitchState), 5 + dtP - s.t ≤ (n : ℚ) * dtP →
      (pitchRunAux omega spinDirection (n + 1) s).isSome = true := by
  intro n
  induction n with
  | zero =>
    intro s h
    simp only [Nat.cast_zero, zero_mul] at h
    rw [pitchRunAux_succ]
    by_cases hz : s.z > -CATCHER_DEPTH
    · have ht : s.t > 5 := by
        have hdt : dtP = 1/500 := rfl
        rw [hdt] at h
        linarith
      simp [hz, ht]
    · simp [hz]
  | succ n ih =>
    intro s h
    rw [pitchRunAux_succ]
    by_cases hz : s.z > -CATCHER_DEPTH
    · by_cases ht : s.t > 5
      · simp [hz, ht]
      · by_cases hy : s.y ≤ 0
        · simp [hz, ht, hy]
        · have hnext :
              5 + dtP - (pitchStep omega spinDirection (pitchMaxUpd s)).t ≤ (n : ℚ) * dtP := by
            rw [pitchStep_t]
            push_cast at h ⊢
            have hsmt : (pitchMaxUpd s).t = s.t := rfl
            rw [hsmt]
            linarith
          have hrec := ih (pitchStep omega spinDirection (pitchMaxUpd s)) hnext
          simp [hz, ht, hy, hrec]
    · simp [hz]

/-- The initial batting state has clock zero. -/
theorem batInit_t (v la sa : ℚ) : (batInit v la sa).t = 0 := rfl

/-- The initial pitch state has clock zero. -/
theorem pitchInit_t (p : PitchingParams) : (pitchInit p).t = 0 := rfl

/-- Sample times inside a batting run form an arithmetic progression with
step dtB starting at the entry clock. -/
theorem batRunAux_times (wx wz : ℚ) :
    ∀ (n : Nat) (s : BatState) (pts : List Point3) (fs : BatState),
      batRunAux wx wz n s = some (pts, fs) →
      ∀ (i : Nat) (hi : i < pts.length), (pts.get ⟨i, hi⟩).t = s.t + (i : ℚ) * dtB := by
  intro n
  induction n with
  | zero =>
    intro s pts fs h
    simp [batRunAux] at h
  | succ n ih =>
    intro s pts fs h
    rw [batRunAux_succ] at h
    by_cases ht : s.t < batMaxTime
    · rw [if_pos ht] at h
      rcases hb : (batStep wx wz s).2 with _ | _
      · rw [hb] at h
        simp only [Bool.false_eq_true, if_false] at h
        rcases Option.map_eq_some'.1 h with ⟨out, hout, heq⟩
        cases heq
        intro i hi
        match i with
        | 0 => simp [batPoint]
        | Nat.succ j =>
          have hj : j < out.1.length := Nat.lt_of_succ_lt_succ hi
          have := ih (batStep wx wz s).1 out.1 out.2 hout j hj
          show (out.1.get ⟨j, hj⟩).t = _
          rw [this, batStep_t]
          push_cast
          ring
      · rw [hb] at h
        simp only [if_true] at h
        cases h
        intro i hi
        match i with
        | 0 => simp [batPoint]
        | Nat.succ j => exact absurd hi (by simp)
    · rw [if_neg ht] at h
      cases h
      intro i hi
      exact absurd hi (by simp)

/-- Sample times inside a pitch run form an arithmetic progression with
step dtP starting at the entry clock. -/
theorem pitchRunAux_times (omega spinDirection : ℚ) :
    ∀ (n : Nat) (s : PitchState) (pts : List Point3) (fs : PitchState),
      pitchRunAux omega spinDirection n s = some (pts, fs) →
      ∀ (i : Nat) (hi : i < pts.length), (pts.get ⟨i, hi⟩).t = s.t + (i : ℚ) * dtP := by
  intro n
  induction n with
  | zero =>
    intro s pts fs h
    simp [pitchRunAux] at h
  | succ n ih =>
    intro s pts fs h
    rw [pitchRunAux_succ] at h
    by_cases hz : s.z > -CATCHER_DEPTH
    · rw [if_pos hz] at h
      by_cases ht : s.t > 5
      · rw [if_pos ht] at h
        cases h
        intro i hi
        match i with
        | 0 => simp [pitchPoint]
        | Nat.succ j => exact absurd hi (by simp)
      · rw [if_neg ht] at h
        by_cases hy : s.y ≤ 0
        · rw [if_pos hy] at h
          cases h
          intro i hi
          match i with
          | 0 => simp [pitchPoint]
          | Nat.succ j => exact absurd hi (by simp)
        · rw [if_neg hy] at h
          rcases Option.map_eq_some'.1 h with ⟨out, hout, heq⟩
          cases heq
          intro i hi
          match i with
          | 0 => simp [pitchPoint]
          | Nat.succ j =>
            have hj : j < out.1.length := Nat.lt_of_succ_lt_succ hi
            have hrec := ih _ out.1 out.2 hout j hj
            show (out.1.get ⟨j, hj⟩).t = _
            rw [hrec, pitchStep_t]
            have hsmt : (pitchMaxUpd s).t = s.t := rfl
            rw [hsmt]
            push_cast
            ring
    · rw [if_neg hz] at h
      cases h
      intro i hi
      exact absurd hi (by simp)

/-- The exit clock of a pitch run: the number of steps taken equals the
number of pushed samples (loop-condition exit) or is one less (break exit,
where the final state was already pushed). -/
theorem pitchRunAux_final_t (omega spinDirection : ℚ) :
    ∀ (n : Nat) (s : PitchState) (pts : List Point3) (fs : PitchState),
      pitchRunAux omega spinDirection n s = some (pts, fs) →
      fs.t = s.t + (pts.length : ℚ) * dtP ∨
        (∃ m : ℕ, pts.length = m + 1 ∧ fs.t = s.t + (m : ℚ) * dtP) := by
  intro n
  induction n with
  | zero =>
    intro s pts fs h
    simp [pitchRunAux] at h
  | succ n ih =>
    intro s pts fs h
    rw [pitchRunAux_succ] at h
    by_cases hz : s.z > -CATCHER_DEPTH
    · rw [if_pos hz] at h
      by_cases ht : s.t > 5
      · rw [if_pos ht] at h
        cases h
        right
        exact ⟨0, by simp, by simp [pitchMaxUpd]⟩
      · rw [if_neg ht] at h
        by_cases hy : s.y ≤ 0
        · rw [if_pos hy] at h
          cases h
          right
          exact ⟨0, by simp, by simp [pitchMaxUpd]⟩
        · rw [if_neg hy] at h
          rcases Option.map_eq_some'.1 h with ⟨out, hout, heq⟩
          cases heq
          have hstep : (pitchStep omega spinDirection (pitchMaxUpd s)).t = s.t + dtP := by
            rw [pitchStep_t]; rfl
          rcases ih _ out.1 out.2 hout with hL | ⟨m, hm, hfs⟩
          · left
            rw [hL, hstep]
            simp only [List.length_cons]
            push_cast
            ring
          · right
            refine ⟨m + 1, by simp [hm], ?_⟩
            rw [hfs, hstep]
            push_cast
            ring
    · rw [if_neg hz] at h
      cases h
      left
      simp

/-- Indexing into a list with a single appended element. -/
theorem get_append_single (l : List Point3) (a : Point3) :
    ∀ (j : ℕ) (hj : j < (l ++ [a]).length),
      (l ++ [a]).get ⟨j, hj⟩ = if h2 : j < l.length then l.get ⟨j, h2⟩ else a := by
  induction l with
  | nil =>
    intro j hj
    match j with
    | 0 => simp
    | Nat.succ j => simp at hj
  | cons b l ih =>
    intro j hj
    match j with
    | 0 => simp
    | Nat.succ j =>
      have hj2 : j < (l ++ [a]).length := by
        simp only [List.length_append, List.length_cons, List.length_singleton] at hj ⊢
        omega
      have hstep : ((b :: l) ++ [a]).get ⟨j + 1, hj⟩ = (l ++ [a]).get ⟨j, hj2⟩ := rfl
      rw [hstep, ih j hj2]
      by_cases h3 : j < l.length
      · rw [dif_pos h3, dif_pos (by simp; omega)]
        rfl
      · rw [dif_neg h3, dif_neg (by simp; omega)]

/-! ## Claims -/

/-- C1: every call to the three entry points terminates and produces a
result: the batting loop always exits within the batFuel bound coming from
the 20 s cap, the pitch loop within the pitchFuel bound coming from the 5 s
failsafe and the z exits, and the solver is a structurally bounded
10-iteration loop, so no input reaches the out-of-fuel branch and no error
value is ever produced. -/
theorem claim_C1_termination :
    (∀ v la sa ws wd : ℚ,
      ∃ out, batRunAux (windX ws wd) (windZ ws wd) batFuel (batInit v la sa) = some out)
    ∧ (∀ p : PitchingParams,
      ∃ out, pitchRunAux (pitchOmega p) p.spinDirection pitchFuel (pitchInit p) = some out)
    ∧ (∀ (p : PitchingParams) (tx ty : ℚ), ∃ hv : ℚ × ℚ, solvePitchAngles p tx ty = hv) := by
  refine ⟨fun v la sa ws wd => ?_, fun p => ?_, fun p tx ty => ⟨_, rfl⟩⟩
  · have h1 := batRunAux_total (windX ws wd) (windZ ws wd) 2000 (batInit v la sa)
      (by rw [batInit_t]; norm_num [batMaxTime, dtB])
    exact Option.isSome_iff_exists.1 h1
  · have h1 := pitchRunAux_total (pitchOmega p) p.spinDirection 2501 (pitchInit p)
      (by rw [pitchInit_t]; norm_num [dtP])
    exact Option.isSome_iff_exists.1 h1

/-- C4 counterexample: a pitch released at height 0 (velocity 100 km/h, all
other parameters zero) makes the loop break on the ground test in its first
iteration; the final push then duplicates the already-pushed sample, so the
returned trajectory has two samples with equal time stamps, refuting strict
monotonicity of sample times for calculatePitchTrajectory. -/
theorem claim_C4_counterexample :
    (calculatePitchTrajectory ⟨100, 0, 0, 0, 0, 0, 0, 0, 0, 0, 0, 0⟩).points.length = 2 ∧
    ((calculatePitchTrajectory ⟨100, 0, 0, 0, 0, 0, 0, 0, 0, 0, 0, 0⟩).points.getD 1
        ⟨0, 0, 0, 0, none, none⟩).t ≤
      ((calculatePitchTrajectory ⟨100, 0, 0, 0, 0, 0, 0, 0, 0, 0, 0, 0⟩).points.getD 0
        ⟨0, 0, 0, 0, none, none⟩).t := by
  constructor <;> decide

/-- C4 amended: batting sample times are strictly increasing with the
constant step dtB = 0.01 s; pitch sample times are strictly increasing with
the constant step dtP = 0.002 s between consecutive samples, except that the
final sample may repeat the time of the previous one (exactly when the loop
exited through the failsafe or ground break, which push the exit state
twice). -/
theorem claim_C4_amended :
    (∀ v la sa ws wd : ℚ, ∀ (i : ℕ)
      (hi : i + 1 < (calculateTrajectory v la sa ws wd).points.length),
      ((calculateTrajectory v la sa ws wd).points.get ⟨i + 1, hi⟩).t
        = ((calculateTrajectory v la sa ws wd).points.get ⟨i, Nat.lt_of_succ_lt hi⟩).t + dtB)
    ∧ (∀ p : PitchingParams, ∀ (i : ℕ)
      (hi : i + 1 < (calculatePitchTrajectory p).points.length),
      ((calculatePitchTrajectory p).points.get ⟨i + 1, hi⟩).t
        = ((calculatePitchTrajectory p).points.get ⟨i, Nat.lt_of_succ_lt hi⟩).t + dtP
      ∨ (i + 2 = (calculatePitchTrajectory p).points.length ∧
        ((calculatePitchTrajectory p).points.get ⟨i + 1, hi⟩).t
          = ((calculatePitchTrajectory p).points.get ⟨i, Nat.lt_of_succ_lt hi⟩).t)) := by
  constructor
  · intro v la sa ws wd
    rcases Option.isSome_iff_exists.1
        (batRunAux_total (windX ws wd) (windZ ws wd) 2000 (batInit v la sa)
          (by rw [batInit_t]; norm_num [batMaxTime, dtB])) with ⟨out, hout⟩
    have hout2 : batRunAux (windX ws wd) (windZ ws wd) batFuel (batInit v la sa) = some out :=
      hout
    have hpts : (calculateTrajectory v la sa ws wd).points = out.1 := by
      unfold calculateTrajectory
      rw [hout2]
    have hT : ∀ (j : ℕ) (hj : j < (calculateTrajectory v la sa ws wd).points.length),
        (((calculateTrajectory v la sa ws wd).points).get ⟨j, hj⟩).t = (j : ℚ) * dtB := by
      rw [hpts]
      intro j hj
      have := batRunAux_times (windX ws wd) (windZ ws wd) batFuel (batInit v la sa)
        out.1 out.2 (by rw [← hout2]) j hj
      rw [this, batInit_t]
      ring
    intro i hi
    rw [hT (i + 1) hi, hT i (Nat.lt_of_succ_lt hi)]
    push_cast
    ring
  · intro p
    by_cases hv : p.velocity ≤ 1/10
    · have hlen : (calculatePitchTrajectory p).points.length = 1 := by
        unfold calculatePitchTrajectory
        rw [if_pos hv]
        rfl
      intro i hi
      rw [hlen] at hi
      omega
    · rcases Option.isSome_iff_exists.1
          (pitchRunAux_total (pitchOmega p) p.spinDirection 2501 (pitchInit p)
            (by rw [pitchInit_t]; norm_num [dtP])) with ⟨out, hout⟩
      have hout2 : pitchRunAux (pitchOmega p) p.spinDirection pitchFuel (pitchInit p)
          = some out := hout
      have hpts : (calculatePitchTrajectory p).points = out.1 ++ [pitchPoint out.2] := by
        unfold calculatePitchTrajectory
        rw [if_neg hv, hout2]
      have hTin : ∀ (j : ℕ) (hj : j < out.1.length),
          ((out.1).get ⟨j, hj⟩).t = (j : ℚ) * dtP := by
        intro j hj
        have := pitchRunAux_times (pitchOmega p) p.spinDirection pitchFuel (pitchInit p)
          out.1 out.2 hout2 j hj
        rw [this, pitchInit_t]
        ring
      have hfin := pitchRunAux_final_t (pitchOmega p) p.spinDirection pitchFuel (pitchInit p)
        out.1 out.2 hout2
      rw [pitchInit_t] at hfin
      have hlen : (calculatePitchTrajectory p).points.length = out.1.length + 1 := by
        rw [hpts]; simp
      have hget : ∀ (j : ℕ) (hj : j < (calculatePitchTrajectory p).points.length),
          ((calculatePitchTrajectory p).points.get ⟨j, hj⟩)
            = if hj2 : j < out.1.length then out.1.get ⟨j, hj2⟩ else pitchPoint out.2 := by
        rw [hpts]
        intro j hj
        exact get_append_single out.1 (pitchPoint out.2) j hj
      intro i hi
      have hi2 : i < out.1.length := by rw [hlen] at hi; omega
      rw [hget (i + 1) hi, hget i (Nat.lt_of_succ_lt hi), dif_pos hi2]
      by_cases hc : i + 1 < out.1.length
      · rw [dif_pos hc]
        left
        rw [hTin (i + 1) hc, hTin i hi2]
        push_cast
        ring
      · rw [dif_neg hc]
        have hceq : i + 1 = out.1.length := by rw [hlen] at hi; omega
        have hppt : (pitchPoint out.2).t = out.2.t := rfl
        rcases hfin with hL | ⟨m, hm, hfs⟩
        · left
          rw [hppt, hL, hTin i hi2, ← hceq]
          push_cast
          ring
        · right
          have hmi : m = i := by omega
          refine ⟨by rw [hlen]; omega, ?_⟩
          rw [hppt, hfs, hTin i hi2, hmi]
          ring

/-- Witness for C4 amended: the batting conjunct at a soft drop with no wind
at index 0, and the pitch conjunct at a release 1 cm from the plate front
at index 0. -/
theorem claim_C4_amended_witness :
    (1 < (calculateTrajectory 0 0 0 0 0).points.length ∧
      ∀ hi : 1 < (calculateTrajectory 0 0 0 0 0).points.length,
      ((calculateTrajectory 0 0 0 0 0).points.get ⟨1, hi⟩).t
        = ((calculateTrajectory 0 0 0 0 0).points.get ⟨0, Nat.lt_of_succ_lt hi⟩).t + dtB)
    ∧ (1 < (calculatePitchTrajectory ⟨150, 0, 0, 0, 0, 0, 18/10, 0, 1843, 0, 0, 0⟩).points.length ∧
      ∀ hi : 1 < (calculatePitchTrajectory ⟨150, 0, 0, 0, 0, 0, 18/10, 0, 1843, 0, 0, 0⟩).points.length,
      ((calculatePitchTrajectory ⟨150, 0, 0, 0, 0, 0, 18/10, 0, 1843, 0, 0, 0⟩).points.get ⟨1, hi⟩).t
        = ((calculatePitchTrajectory ⟨150, 0, 0, 0, 0, 0, 18/10, 0, 1843, 0, 0, 0⟩).points.get
            ⟨0, Nat.lt_of_succ_lt hi⟩).t + dtP
      ∨ (2 = (calculatePitchTrajectory ⟨150, 0, 0, 0, 0, 0, 18/10, 0, 1843, 0, 0, 0⟩).points.length ∧
        ((calculatePitchTrajectory ⟨150, 0, 0, 0, 0, 0, 18/10, 0, 1843, 0, 0, 0⟩).points.get ⟨1, hi⟩).t
          = ((calculatePitchTrajectory ⟨150, 0, 0, 0, 0, 0, 18/10, 0, 1843, 0, 0, 0⟩).points.get
              ⟨0, Nat.lt_of_succ_lt hi⟩).t)) :=
  ⟨⟨by decide, fun hi => claim_C4_amended.1 0 0 0 0 0 0 hi⟩,
   ⟨by decide, fun hi => claim_C4_amended.2 ⟨150, 0, 0, 0, 0, 0, 18/10, 0, 1843, 0, 0, 0⟩ 0 hi⟩⟩

/-- C5: for velocity at most 0.1 km/h the pitch integrator performs no
integration and returns the single release-point sample at t = 0 with zero
distance and zero hang time. -/
theorem claim_C5_degenerate_pitch (p : PitchingParams) (h : p.velocity ≤ 1/10) :
    calculatePitchTrajectory p =
      { points := [{ x := p.releaseSide / 100, y := p.releaseHeight,
                     z := MOUND_DISTANCE - p.extension / 100, t := 0,
                     breakX := some 0, breakY := some 0 }],
        distance := 0,
        maxHeight := p.releaseHeight,
        hangTime := 0,
        landingPosition := none,
        finalPosition := some (p.releaseSide / 100, p.releaseHeight),
        plateCrossing := some (p.releaseSide / 100, p.releaseHeight) } := by
  unfold calculatePitchTrajectory
  rw [if_pos h]

/-- Witness for C5 at velocity zero. -/
theorem claim_C5_degenerate_pitch_witness :
    (0 : ℚ) ≤ 1/10 ∧
    calculatePitchTrajectory ⟨0, 2200, 210, 95, 0, 0, 18/10, 20, 180, 0, 1, 0⟩ =
      { points := [{ x := 20 / 100, y := 18/10,
                     z := MOUND_DISTANCE - 180 / 100, t := 0,
                     breakX := some 0, breakY := some 0 }],
        distance := 0,
        maxHeight := 18/10,
        hangTime := 0,
        landingPosition := none,
        finalPosition := some (20 / 100, 18/10),
        plateCrossing := some (20 / 100, 18/10) } :=
  ⟨by norm_num, claim_C5_degenerate_pitch ⟨0, 2200, 210, 95, 0, 0, 18/10, 20, 180, 0, 1, 0⟩ (by norm_num)⟩

/-- C10: for velocity at most 0.1 km/h the solver returns the hAngle and
vAngle stored in the parameters unchanged, before the iteration loop. -/
theorem claim_C10_degenerate_solver (p : PitchingParams) (tx ty : ℚ) (h : p.velocity ≤ 1/10) :
    solvePitchAngles p tx ty = (p.hAngle, p.vAngle) := by
  unfold solvePitchAngles
  rw [if_pos h]

/-- Witness for C10 at velocity zero. -/
theorem claim_C10_degenerate_solver_witness :
    (0 : ℚ) ≤ 1/10 ∧
    solvePitchAngles ⟨0, 2200, 210, 95, 3, -2, 18/10, 20, 180, 0, 1, 0⟩ (1/2) 1 = (3, -2) :=
  ⟨by norm_num, claim_C10_degenerate_solver ⟨0, 2200, 210, 95, 3, -2, 18/10, 20, 180, 0, 1, 0⟩
    (1/2) 1 (by norm_num)⟩

/-- The wall scan leaves height, clock, max height, carry distance, landing
record and ground flag unchanged. -/
theorem wallScan_fields (a b : ℚ) (s : BatState) (l : List WallSeg) :
    (wallScan a b s l).y = s.y ∧ (wallScan a b s l).maxHeight = s.maxHeight ∧
    (wallScan a b s l).carryDistance = s.carryDistance ∧
    (wallScan a b s l).landing = s.landing ∧
    (wallScan a b s l).hasHitGround = s.hasHitGround := by
  unfold wallScan
  cases l.findSome? (fun seg =>
      (getLineIntersection a b s.x s.z seg.x1 seg.z1 seg.x2 seg.z2).map
        (fun ip => (seg, ip))) with
  | none => exact ⟨rfl, rfl, rfl, rfl, rfl⟩
  | some v =>
    simp only [wallApply]
    split
    · exact ⟨rfl, rfl, rfl, rfl, rfl⟩
    · exact ⟨rfl, rfl, rfl, rfl, rfl⟩

/-- Ground handling always ends with nonnegative height (clamped or already
positive). -/
theorem groundPhase_y_nonneg (s : BatState) : 0 ≤ (groundPhase s).1.y := by
  simp only [groundPhase]
  split_ifs with hy <;>
    first
      | exact le_refl 0
      | exact le_of_lt (not_le.mp hy)

/-- One batting step always ends with nonnegative height. -/
theorem batStep_y_nonneg (wx wz : ℚ) (s : BatState) : 0 ≤ (batStep wx wz s).1.y :=
  groundPhase_y_nonneg (batWallGate wx wz s)

/-- All samples of a batting run have nonnegative height provided the entry
state does. -/
theorem batRunAux_y_nonneg (wx wz : ℚ) :
    ∀ (n : Nat) (s : BatState) (pts : List Point3) (fs : BatState),
      batRunAux wx wz n s = some (pts, fs) → 0 ≤ s.y →
      ∀ q ∈ pts, 0 ≤ q.y := by
  intro n
  induction n with
  | zero =>
    intro s pts fs h
    simp [batRunAux] at h
  | succ n ih =>
    intro s pts fs h hy
    rw [batRunAux_succ] at h
    by_cases ht : s.t < batMaxTime
    · rw [if_pos ht] at h
      rcases hb : (batStep wx wz s).2 with _ | _
      · rw [hb] at h
        simp only [Bool.false_eq_true, if_false] at h
        rcases Option.map_eq_some'.1 h with ⟨out, hout, heq⟩
        cases heq
        intro q hq
        rcases List.mem_cons.1 hq with hq1 | hq2
        · rw [hq1]; exact hy
        · exact ih _ _ _ hout (batStep_y_nonneg wx wz s) q hq2
      · rw [hb] at h
        simp only [if_true] at h
        cases h
        intro q hq
        rw [List.mem_singleton.1 hq]
        exact hy
    · rw [if_neg ht] at h
      cases h
      intro q hq
      simp at hq

/-- C9: ground invariant of the batted-ball integrator: no sample of any
returned trajectory has height below zero, since every step that takes the
height below zero clamps it to zero before the next sample is pushed. -/
theorem claim_C9_ground_invariant (v la sa ws wd : ℚ) :
    ∀ q ∈ (calculateTrajectory v la sa ws wd).points, 0 ≤ q.y := by
  rcases Option.isSome_iff_exists.1
      (batRunAux_total (windX ws wd) (windZ ws wd) 2000 (batInit v la sa)
        (by rw [batInit_t]; norm_num [batMaxTime, dtB])) with ⟨out, hout⟩
  have hout2 : batRunAux (windX ws wd) (windZ ws wd) batFuel (batInit v la sa) = some out :=
    hout
  have hpts : (calculateTrajectory v la sa ws wd).points = out.1 := by
    unfold calculateTrajectory
    rw [hout2]
  rw [hpts]
  have hy0 : (0 : ℚ) ≤ (batInit v la sa).y := by
    have : (batInit v la sa).y = 1/2 := rfl
    rw [this]
    norm_num
  exact fun q hq => batRunAux_y_nonneg (windX ws wd) (windZ ws wd) batFuel _ _ _ hout2 hy0 q hq

/-- Witness for C9: the launch sample of a dropped ball with no wind. -/
theorem claim_C9_ground_invariant_witness :
    (⟨0, 1/2, 0, 0, none, none⟩ : Point3) ∈ (calculateTrajectory 0 0 0 0 0).points ∧
    (0 : ℚ) ≤ (⟨0, 1/2, 0, 0, none, none⟩ : Point3).y :=
  ⟨by decide, claim_C9_ground_invariant 0 0 0 0 0 ⟨0, 1/2, 0, 0, none, none⟩ (by decide)⟩

/-- Ground handling with the flag already set never touches the carry
distance, and the flag stays set. -/
theorem groundPhase_frozen (s : BatState) (h : s.hasHitGround = true) :
    (groundPhase s).1.carryDistance = s.carryDistance ∧
    (groundPhase s).1.hasHitGround = true := by
  simp only [groundPhase]
  split_ifs <;> simp_all

/-- Ground handling at the first contact records the carry distance as the
horizontal range and the landing position, sets the flag, and leaves the
horizontal position unchanged. -/
theorem groundPhase_contact (s : BatState) (h1 : s.hasHitGround = false) (h2 : s.y ≤ 0) :
    (groundPhase s).1.carryDistance = mySqrt (s.x ^ 2 + s.z ^ 2) ∧
    (groundPhase s).1.hasHitGround = true ∧
    (groundPhase s).1.x = s.x ∧ (groundPhase s).1.z = s.z ∧
    (groundPhase s).1.landing = some (s.x, 0, s.z) := by
  simp only [groundPhase]
  split_ifs <;> simp_all

/-- Ground handling above the ground is the identity. -/
theorem groundPhase_nocontact (s : BatState) (h : ¬ s.y ≤ 0) :
    groundPhase s = (s, false) := by
  simp only [groundPhase]
  rw [if_neg h]

/-- Integration and the wall test leave carry distance, ground flag and
landing record unchanged. -/
theorem batWallGate_fields (wx wz : ℚ) (s : BatState) :
    (batWallGate wx wz s).carryDistance = s.carryDistance ∧
    (batWallGate wx wz s).hasHitGround = s.hasHitGround ∧
    (batWallGate wx wz s).landing = s.landing := by
  simp only [batWallGate]
  split
  · have hf := wallScan_fields s.x s.z (batIntegrate wx wz s) WALL_SEGMENTS
    exact ⟨hf.2.2.1, hf.2.2.2.2, hf.2.2.2.1⟩
  · exact ⟨rfl, rfl, rfl⟩

/-- After the first ground contact the batting step preserves the carry
distance and the flag: later bounces, rolls and wall hits leave it fixed. -/
theorem batStep_carry_frozen (wx wz : ℚ) (s : BatState) (h : s.hasHitGround = true) :
    (batStepState wx wz s).carryDistance = s.carryDistance ∧
    (batStepState wx wz s).hasHitGround = true := by
  unfold batStepState batStep
  have hw := batWallGate_fields wx wz s
  have hgf := groundPhase_frozen (batWallGate wx wz s) (by rw [hw.2.1, h])
  exact ⟨hgf.1.trans hw.1, hgf.2⟩

/-- At the step of the first ground contact the carry distance is set to the
horizontal range of the post-step position. -/
theorem batStep_first_contact (wx wz : ℚ) (s : BatState) (h1 : s.hasHitGround = false)
    (h2 : (batStepState wx wz s).hasHitGround = true) :
    (batStepState wx wz s).carryDistance
      = mySqrt ((batStepState wx wz s).x ^ 2 + (batStepState wx wz s).z ^ 2) := by
  unfold batStepState batStep at h2 ⊢
  have hw := batWallGate_fields wx wz s
  by_cases hy : (batWallGate wx wz s).y ≤ 0
  · have hc := groundPhase_contact (batWallGate wx wz s) (by rw [hw.2.1, h1]) hy
    rw [hc.1, hc.2.2.1, hc.2.2.2.1]
  · exfalso
    rw [groundPhase_nocontact (batWallGate wx wz s) hy] at h2
    rw [show ((batWallGate wx wz s, false) : BatState × Bool).1 = batWallGate wx wz s from rfl]
      at h2
    rw [hw.2.1, h1] at h2
    exact Bool.false_ne_true h2

/-- Whole batting runs entered after the first ground contact return the
frozen carry distance. -/
theorem batRunAux_carry_frozen (wx wz : ℚ) :
    ∀ (n : Nat) (s : BatState) (pts : List Point3) (fs : BatState),
      batRunAux wx wz n s = some (pts, fs) → s.hasHitGround = true →
      fs.carryDistance = s.carryDistance ∧ fs.hasHitGround = true := by
  intro n
  induction n with
  | zero =>
    intro s pts fs h
    simp [batRunAux] at h
  | succ n ih =>
    intro s pts fs h hflag
    rw [batRunAux_succ] at h
    by_cases ht : s.t < batMaxTime
    · rw [if_pos ht] at h
      rcases hb : (batStep wx wz s).2 with _ | _
      · rw [hb] at h
        simp only [Bool.false_eq_true, if_false] at h
        rcases Option.map_eq_some'.1 h with ⟨out, hout, heq⟩
        cases heq
        have hfr := batStep_carry_frozen wx wz s hflag
        have := ih _ _ _ hout hfr.2
        exact ⟨this.1.trans hfr.1, this.2⟩
      · rw [hb] at h
        simp only [if_true] at h
        cases h
        exact batStep_carry_frozen wx wz s hflag
    · rw [if_neg ht] at h
      cases h
      exact ⟨rfl, hflag⟩

/-- C6: the batted-ball distance is fixed at the first ground contact.  The
step at which the flag first flips records the horizontal range of its
post-step position as the carry distance; every later step (bounce, roll or
wall event) preserves the recorded value and the flag, as does every whole
run entered with the flag set; and the returned distance is the recorded
carry distance when the ground was hit, or the horizontal range of the final
state when the ball never touched the ground before truncation. -/
theorem claim_C6_distance_frozen :
    (∀ (wx wz : ℚ) (s : BatState), s.hasHitGround = true →
      (batStepState wx wz s).carryDistance = s.carryDistance ∧
      (batStepState wx wz s).hasHitGround = true)
    ∧ (∀ (wx wz : ℚ) (s : BatState), s.hasHitGround = false →
      (batStepState wx wz s).hasHitGround = true →
      (batStepState wx wz s).carryDistance
        = mySqrt ((batStepState wx wz s).x ^ 2 + (batStepState wx wz s).z ^ 2))
    ∧ (∀ (wx wz : ℚ) (n : Nat) (s : BatState) (pts : List Point3) (fs : BatState),
      batRunAux wx wz n s = some (pts, fs) → s.hasHitGround = true →
      fs.carryDistance = s.carryDistance)
    ∧ (∀ v la sa ws wd : ℚ,
      (calculateTrajectory v la sa ws wd).distance
        = (if (batFinal v la sa ws wd).hasHitGround then (batFinal v la sa ws wd).carryDistance
           else mySqrt ((batFinal v la sa ws wd).x ^ 2 + (batFinal v la sa ws wd).z ^ 2))) := by
  refine ⟨batStep_carry_frozen, batStep_first_contact,
    fun wx wz n s pts fs h hf => (batRunAux_carry_frozen wx wz n s pts fs h hf).1,
    fun v la sa ws wd => ?_⟩
  rcases Option.isSome_iff_exists.1
      (batRunAux_total (windX ws wd) (windZ ws wd) 2000 (batInit v la sa)
        (by rw [batInit_t]; norm_num [batMaxTime, dtB])) with ⟨out, hout⟩
  have hout2 : batRunAux (windX ws wd) (windZ ws wd) batFuel (batInit v la sa) = some out :=
    hout
  unfold calculateTrajectory batFinal
  rw [hout2]

/-- Witness for C6: the frozen-carry conjunct at a one-step state with the
flag set, the first-contact conjunct at a state dropping below the ground
this step, the run conjunct at an expired clock, and the extraction conjunct
at the dropped-ball input. -/
theorem claim_C6_distance_frozen_witness :
    ((batStepState 0 0 ⟨1, 1, 5, 0, 0, 0, 1, 1, 7, none, true⟩).carryDistance = 7 ∧
      (batStepState 0 0 ⟨1, 1, 5, 0, 0, 0, 1, 1, 7, none, true⟩).hasHitGround = true)
    ∧ ((batStepState 0 0 ⟨0, 1/200, 0, 0, 0, -1, 0, 1, 0, none, false⟩).carryDistance
        = mySqrt ((batStepState 0 0 ⟨0, 1/200, 0, 0, 0, -1, 0, 1, 0, none, false⟩).x ^ 2
          + (batStepState 0 0 ⟨0, 1/200, 0, 0, 0, -1, 0, 1, 0, none, false⟩).z ^ 2))
    ∧ ((⟨1, 1, 5, 20, 0, 0, 1, 1, 7, none, true⟩ : BatState).carryDistance = 7) := by
  refine ⟨claim_C6_distance_frozen.1 0 0 _ (by decide), ?_, ?_⟩
  · exact claim_C6_distance_frozen.2.1 0 0 ⟨0, 1/200, 0, 0, 0, -1, 0, 1, 0, none, false⟩
      (by decide) (by decide)
  · have h := claim_C6_distance_frozen.2.2.1 0 0 1
      ⟨1, 1, 5, 20, 0, 0, 1, 1, 7, none, true⟩ []
      ⟨1, 1, 5, 20, 0, 0, 1, 1, 7, none, true⟩ (by decide) (by decide)
    exact h.trans (by decide)

/-- The plate-crossing field after one pitch step: set to the z = 0
interpolation exactly when z passes from nonnegative to negative in the
step, otherwise inherited. -/
theorem pitchStep_pc (omega spinDirection : ℚ) (s : PitchState) :
    (pitchStep omega spinDirection s).plateCrossing =
      (if s.z ≥ 0 ∧ (pitchStep omega spinDirection s).z < 0
       then some (lerpZ0 s.x s.y s.z (pitchStep omega spinDirection s).x
         (pitchStep omega spinDirection s).y (pitchStep omega spinDirection s).z)
       else s.plateCrossing) := by
  simp only [pitchStep, lerpZ0]

/-- A pitch run returning no samples exits immediately with its entry
state. -/
theorem pitchRunAux_nil (omega spinDirection : ℚ) (n : Nat) (s : PitchState)
    (fs : PitchState) (h : pitchRunAux omega spinDirection n s = some ([], fs)) :
    fs = s := by
  match n with
  | 0 => simp [pitchRunAux] at h
  | Nat.succ n =>
    rw [pitchRunAux_succ] at h
    by_cases hz : s.z > -CATCHER_DEPTH
    · rw [if_pos hz] at h
      by_cases ht : s.t > 5
      · rw [if_pos ht] at h
        simp at h
      · rw [if_neg ht] at h
        by_cases hy : s.y ≤ 0
        · rw [if_pos hy] at h
          simp at h
        · rw [if_neg hy] at h
          rcases Option.map_eq_some'.1 h with ⟨out, hout, heq⟩
          simp at heq
    · rw [if_neg hz] at h
      cases h
      rfl

/-- The first sample of a nonempty pitch run is the entry state's sample. -/
theorem pitchRunAux_head (omega spinDirection : ℚ) (n : Nat) (s : PitchState)
    (c : Point3) (rest : List Point3) (fs : PitchState)
    (h : pitchRunAux omega spinDirection n s = some (c :: rest, fs)) :
    c = pitchPoint s := by
  match n with
  | 0 => simp [pitchRunAux] at h
  | Nat.succ n =>
    rw [pitchRunAux_succ] at h
    by_cases hz : s.z > -CATCHER_DEPTH
    · rw [if_pos hz] at h
      by_cases ht : s.t > 5
      · rw [if_pos ht] at h
        cases h
        rfl
      · rw [if_neg ht] at h
        by_cases hy : s.y ≤ 0
        · rw [if_pos hy] at h
          cases h
          rfl
        · rw [if_neg hy] at h
          rcases Option.map_eq_some'.1 h with ⟨out, hout, heq⟩
          cases heq
          rfl
    · rw [if_neg hz] at h
      simp at h

/-- getLastD of a list with one appended element. -/
theorem getLastD_append_single (l : List Point3) (a : Point3) :
    ∀ d : Point3, (l ++ [a]).getLastD d = a := by
  induction l with
  | nil => intro d; rfl
  | cons b l ih =>
    intro d
    rw [List.cons_append, List.getLastD_cons]
    exact ih b

/-- The plate-crossing field at exit equals the interpolation of the last
crossing among the returned samples (final push included), falling back to
the entry field when no pair crosses. -/
theorem pitchRunAux_lastCrossing (omega spinDirection : ℚ) :
    ∀ (n : Nat) (s : PitchState) (pts : List Point3) (fs : PitchState),
      pitchRunAux omega spinDirection n s = some (pts, fs) →
      fs.plateCrossing =
        (match lastCrossing (pts ++ [pitchPoint fs]) with
         | some c => some c
         | none => s.plateCrossing) := by
  intro n
  induction n with
  | zero =>
    intro s pts fs h
    simp [pitchRunAux] at h
  | succ n ih =>
    intro s pts fs h
    rw [pitchRunAux_succ] at h
    by_cases hz : s.z > -CATCHER_DEPTH
    · rw [if_pos hz] at h
      by_cases ht : s.t > 5
      · rw [if_pos ht] at h
        cases h
        have hnc : lastCrossing ([pitchPoint s] ++ [pitchPoint (pitchMaxUpd s)]) = none := by
          have hnc2 : ¬ ((pitchPoint s).z ≥ 0 ∧ (pitchPoint (pitchMaxUpd s)).z < 0) := by
            rintro ⟨c1, c2⟩
            have hzz : (pitchPoint s).z = (pitchPoint (pitchMaxUpd s)).z := rfl
            rw [hzz] at c1
            exact absurd (lt_of_le_of_lt c1 c2) (lt_irrefl 0)
          simp [lastCrossing, hnc2]
        rw [hnc]
        rfl
      · rw [if_neg ht] at h
        by_cases hy : s.y ≤ 0
        · rw [if_pos hy] at h
          cases h
          have hnc : lastCrossing ([pitchPoint s] ++ [pitchPoint (pitchMaxUpd s)]) = none := by
            have hnc2 : ¬ ((pitchPoint s).z ≥ 0 ∧ (pitchPoint (pitchMaxUpd s)).z < 0) := by
              rintro ⟨c1, c2⟩
              have hzz : (pitchPoint s).z = (pitchPoint (pitchMaxUpd s)).z := rfl
              rw [hzz] at c1
              exact absurd (lt_of_le_of_lt c1 c2) (lt_irrefl 0)
            simp [lastCrossing, hnc2]
          rw [hnc]
          rfl
        · rw [if_neg hy] at h
          rcases Option.map_eq_some'.1 h with ⟨out, hout, heq⟩
          obtain ⟨pts1, fs1⟩ := out
          cases heq
          have hIH := ih _ pts1 fs1 hout
          rcases pts1 with _ | ⟨c, rest⟩
          · have hfs : fs1 = pitchStep omega spinDirection (pitchMaxUpd s) :=
              pitchRunAux_nil omega spinDirection n _ fs1 hout
            subst hfs
            have hred : lastCrossing ([pitchPoint s] ++
                  [pitchPoint (pitchStep omega spinDirection (pitchMaxUpd s))])
                = (if s.z ≥ 0 ∧ (pitchStep omega spinDirection (pitchMaxUpd s)).z < 0
                  then some (lerpZ0 s.x s.y s.z
                    (pitchStep omega spinDirection (pitchMaxUpd s)).x
                    (pitchStep omega spinDirection (pitchMaxUpd s)).y
                    (pitchStep omega spinDirection (pitchMaxUpd s)).z)
                  else none) := rfl
            rw [hred]
            have hstep := pitchStep_pc omega spinDirection (pitchMaxUpd s)
            have hcoord : (pitchMaxUpd s).z = s.z := rfl
            have hx : (pitchMaxUpd s).x = s.x := rfl
            have hy2 : (pitchMaxUpd s).y = s.y := rfl
            have hpc : (pitchMaxUpd s).plateCrossing = s.plateCrossing := rfl
            rw [hcoord, hx, hy2, hpc] at hstep
            rw [hstep]
            split_ifs with hcond
            · rfl
            · rfl
          · have hc : c = pitchPoint (pitchStep omega spinDirection (pitchMaxUpd s)) :=
              pitchRunAux_head omega spinDirection n _ c rest fs1 hout
            subst hc
            dsimp only
            have heq2 : lastCrossing ((pitchPoint s ::
                  pitchPoint (pitchStep omega spinDirection (pitchMaxUpd s)) :: rest) ++
                [pitchPoint fs1])
              = (match lastCrossing ((pitchPoint (pitchStep omega spinDirection
                    (pitchMaxUpd s)) :: rest) ++ [pitchPoint fs1]) with
                | some cc => some cc
                | none =>
                  if (pitchPoint s).z ≥ 0 ∧
                      (pitchPoint (pitchStep omega spinDirection (pitchMaxUpd s))).z < 0
                  then some (lerpZ0 (pitchPoint s).x (pitchPoint s).y (pitchPoint s).z
                    (pitchPoint (pitchStep omega spinDirection (pitchMaxUpd s))).x
                    (pitchPoint (pitchStep omega spinDirection (pitchMaxUpd s))).y
                    (pitchPoint (pitchStep omega spinDirection (pitchMaxUpd s))).z)
                  else none) := rfl
            rw [heq2]
            rcases hLC : lastCrossing ((pitchPoint (pitchStep omega spinDirection
                (pitchMaxUpd s)) :: rest) ++ [pitchPoint fs1]) with _ | cc
            · rw [hLC] at hIH
              have hIH2 : fs1.plateCrossing
                  = (pitchStep omega spinDirection (pitchMaxUpd s)).plateCrossing :=
                hIH.trans rfl
              rw [hIH2]
              have hstep := pitchStep_pc omega spinDirection (pitchMaxUpd s)
              have hcoord : (pitchMaxUpd s).z = s.z := rfl
              have hx : (pitchMaxUpd s).x = s.x := rfl
              have hy2 : (pitchMaxUpd s).y = s.y := rfl
              have hpc : (pitchMaxUpd s).plateCrossing = s.plateCrossing := rfl
              rw [hcoord, hx, hy2, hpc] at hstep
              rw [hstep]
              have hcz : (pitchPoint s).z = s.z := rfl
              have hcz2 : (pitchPoint (pitchStep omega spinDirection (pitchMaxUpd s))).z
                  = (pitchStep omega spinDirection (pitchMaxUpd s)).z := rfl
              rw [hcz, hcz2]
              split_ifs with hcond
              · rfl
              · rfl
            · rw [hLC] at hIH
              have hIH2 : fs1.plateCrossing = some cc := hIH.trans rfl
              rw [hIH2]
    · rw [if_neg hz] at h
      cases h
      have hnone : lastCrossing (([] : List Point3) ++ [pitchPoint s]) = none := rfl
      rw [hnone]

/-- C2: counterexample. On c2Params the returned trajectory has four samples
whose z passes from nonnegative to negative both between samples 0 and 1 and
between samples 2 and 3; the returned plateCrossing is the interpolation of
the second (last) crossing, not of the first one, refuting the claim that the
value is captured once at the first crossing. -/
theorem claim_C2_counterexample :
    ((calculatePitchTrajectory c2Params).points.length = 4 ∧
     (((calculatePitchTrajectory c2Params).points.getD 0 dflPoint).z ≥ 0 ∧
      ((calculatePitchTrajectory c2Params).points.getD 1 dflPoint).z < 0) ∧
     (((calculatePitchTrajectory c2Params).points.getD 2 dflPoint).z ≥ 0 ∧
      ((calculatePitchTrajectory c2Params).points.getD 3 dflPoint).z < 0) ∧
     (calculatePitchTrajectory c2Params).plateCrossing =
       some (lerpZ0 ((calculatePitchTrajectory c2Params).points.getD 2 dflPoint).x
         ((calculatePitchTrajectory c2Params).points.getD 2 dflPoint).y
         ((calculatePitchTrajectory c2Params).points.getD 2 dflPoint).z
         ((calculatePitchTrajectory c2Params).points.getD 3 dflPoint).x
         ((calculatePitchTrajectory c2Params).points.getD 3 dflPoint).y
         ((calculatePitchTrajectory c2Params).points.getD 3 dflPoint).z) ∧
     ¬ (calculatePitchTrajectory c2Params).plateCrossing =
       some (lerpZ0 ((calculatePitchTrajectory c2Params).points.getD 0 dflPoint).x
         ((calculatePitchTrajectory c2Params).points.getD 0 dflPoint).y
         ((calculatePitchTrajectory c2Params).points.getD 0 dflPoint).z
         ((calculatePitchTrajectory c2Params).points.getD 1 dflPoint).x
         ((calculatePitchTrajectory c2Params).points.getD 1 dflPoint).y
         ((calculatePitchTrajectory c2Params).points.getD 1 dflPoint).z)) := by
  decide

/-- C2 (amended): whenever a pitch step takes z from nonnegative to negative
the recorded plate crossing is the linear interpolation of x and y at z = 0,
never a raw sample; but the value is the one of the LAST such crossing, and
when no crossing occurs the returned plateCrossing falls back to the final
sample position. -/
theorem claim_C2_amended :
    (∀ (omega spinDirection : ℚ) (s : PitchState),
        s.z ≥ 0 → (pitchStep omega spinDirection s).z < 0 →
        (pitchStep omega spinDirection s).plateCrossing =
          some (lerpZ0 s.x s.y s.z (pitchStep omega spinDirection s).x
            (pitchStep omega spinDirection s).y
            (pitchStep omega spinDirection s).z)) ∧
    (∀ p : PitchingParams, ¬ p.velocity ≤ 1/10 →
        (calculatePitchTrajectory p).plateCrossing =
          some ((lastCrossing (calculatePitchTrajectory p).points).getD
            (((calculatePitchTrajectory p).points.getLastD dflPoint).x,
             ((calculatePitchTrajectory p).points.getLastD dflPoint).y))) := by
  constructor
  · intro omega spinDirection s h1 h2
    rw [pitchStep_pc]
    rw [if_pos ⟨h1, h2⟩]
  · intro p hv
    have htot := pitchRunAux_total (pitchOmega p) p.spinDirection 2501 (pitchInit p)
      (by rw [pitchInit_t]; push_cast; norm_num [dtP])
    rw [Option.isSome_iff_exists] at htot
    obtain ⟨out, hout⟩ := htot
    obtain ⟨pts, fs⟩ := out
    have hout2 : pitchRunAux (pitchOmega p) p.spinDirection pitchFuel (pitchInit p)
        = some (pts, fs) := hout
    have hLC := pitchRunAux_lastCrossing (pitchOmega p) p.spinDirection pitchFuel
      (pitchInit p) pts fs hout2
    unfold calculatePitchTrajectory
    rw [if_neg hv, hout2]
    dsimp only
    rcases h : lastCrossing (pts ++ [pitchPoint fs]) with _ | c
    · rw [h] at hLC
      have hinit : (pitchInit p).plateCrossing = none := rfl
      have hfs : fs.plateCrossing = none := hLC.trans hinit
      rw [hfs, getLastD_append_single]
      rfl
    · rw [h] at hLC
      have hfs : fs.plateCrossing = some c := hLC.trans rfl
      rw [hfs]
      rfl

/-- Witness for the amended C2 theorem: a concrete crossing step records the
interpolated value, and a concrete fast pitch satisfies the last-crossing
description of the returned plateCrossing. -/
theorem claim_C2_amended_witness :
    ((pitchStep 0 0 c2wState).plateCrossing =
      some (lerpZ0 c2wState.x c2wState.y c2wState.z (pitchStep 0 0 c2wState).x
        (pitchStep 0 0 c2wState).y (pitchStep 0 0 c2wState).z)) ∧
    ((calculatePitchTrajectory c2wParams).plateCrossing =
      some ((lastCrossing (calculatePitchTrajectory c2wParams).points).getD
        (((calculatePitchTrajectory c2wParams).points.getLastD dflPoint).x,
         ((calculatePitchTrajectory c2wParams).points.getLastD dflPoint).y))) :=
  ⟨claim_C2_amended.1 0 0 c2wState (by decide) (by decide),
   claim_C2_amended.2 c2wParams (by decide)⟩

/-- wallApply at a confirmed hit with opposing velocity: the record written
by the source (reflection about the inward normal scaled by the wall
restitution, damped vy, nudged position). -/
theorem wallApply_reflect (s : BatState) (seg : WallSeg) (ip : ℚ × ℚ)
    (h : s.vx * (segNormal seg).1 + s.vz * (segNormal seg).2 < 0) :
    wallApply s seg ip = { s with
      vx := (s.vx - 2 * (s.vx * (segNormal seg).1 + s.vz * (segNormal seg).2)
        * (segNormal seg).1) * (7/10),
      vz := (s.vz - 2 * (s.vx * (segNormal seg).1 + s.vz * (segNormal seg).2)
        * (segNormal seg).2) * (7/10),
      vy := s.vy * (8/10),
      x := ip.1 + (segNormal seg).1 * (1/5),
      z := ip.2 + (segNormal seg).2 * (1/5) } := by
  simp only [wallApply]
  rw [if_pos h]
  rfl

/-- wallApply leaves the state unchanged when the velocity does not oppose
the inward normal. -/
theorem wallApply_noop (s : BatState) (seg : WallSeg) (ip : ℚ × ℚ)
    (h : ¬ s.vx * (segNormal seg).1 + s.vz * (segNormal seg).2 < 0) :
    wallApply s seg ip = s := by
  simp only [wallApply]
  rw [if_neg h]

/-- The wall scan applies exactly the first segment whose span intersects the
motion segment, ignoring all later segments. -/
theorem wallScan_first (prevX prevZ : ℚ) (s : BatState) :
    ∀ (l1 : List WallSeg) (seg : WallSeg) (l2 : List WallSeg) (ip : ℚ × ℚ),
      (∀ sg ∈ l1,
        getLineIntersection prevX prevZ s.x s.z sg.x1 sg.z1 sg.x2 sg.z2 = none) →
      getLineIntersection prevX prevZ s.x s.z seg.x1 seg.z1 seg.x2 seg.z2 = some ip →
      wallScan prevX prevZ s (l1 ++ seg :: l2) = wallApply s seg ip := by
  intro l1
  induction l1 with
  | nil =>
    intro seg l2 ip h1 h2
    simp [wallScan, List.findSome?_cons, h2]
  | cons a l1 ih =>
    intro seg l2 ip h1 h2
    have ha := h1 a (List.mem_cons_self a l1)
    have hstep : wallScan prevX prevZ s ((a :: l1) ++ seg :: l2)
        = wallScan prevX prevZ s (l1 ++ seg :: l2) := by
      simp [wallScan, List.findSome?_cons, ha]
    rw [hstep]
    exact ih seg l2 ip (fun sg hsg => h1 sg (List.mem_cons_of_mem a hsg)) h2

/-- C7: wall reflection.  (i) The wall test runs only beyond 60 m depth with
the ball between the ground and the 4 m wall top; (ii) on a hit with the
horizontal velocity opposing the inward normal, the velocity is reflected
about the normal and scaled by 0.7 horizontally and 0.8 vertically, and the
position moves to the intersection point plus 0.2 m along the normal;
(iii) hence for a unit inward normal the outgoing horizontal speed is
exactly 0.7 times the incoming one; (iv) only the first intersecting
segment is applied in a step. -/
theorem claim_C7_wall_reflection :
    (∀ (wx wz : ℚ) (s : BatState),
      batWallGate wx wz s =
        if (batIntegrate wx wz s).z > 60 ∧ 0 ≤ (batIntegrate wx wz s).y ∧
            (batIntegrate wx wz s).y ≤ WALL_HEIGHT
        then wallScan s.x s.z (batIntegrate wx wz s) WALL_SEGMENTS
        else batIntegrate wx wz s) ∧
    (∀ (s : BatState) (seg : WallSeg) (ip : ℚ × ℚ),
      s.vx * (segNormal seg).1 + s.vz * (segNormal seg).2 < 0 →
      wallApply s seg ip = { s with
        vx := (s.vx - 2 * (s.vx * (segNormal seg).1 + s.vz * (segNormal seg).2)
          * (segNormal seg).1) * (7/10),
        vz := (s.vz - 2 * (s.vx * (segNormal seg).1 + s.vz * (segNormal seg).2)
          * (segNormal seg).2) * (7/10),
        vy := s.vy * (8/10),
        x := ip.1 + (segNormal seg).1 * (1/5),
        z := ip.2 + (segNormal seg).2 * (1/5) }) ∧
    (∀ (s : BatState) (seg : WallSeg) (ip : ℚ × ℚ),
      (segNormal seg).1 ^ 2 + (segNormal seg).2 ^ 2 = 1 →
      s.vx * (segNormal seg).1 + s.vz * (segNormal seg).2 < 0 →
      (wallApply s seg ip).vx ^ 2 + (wallApply s seg ip).vz ^ 2
        = (49/100) * (s.vx ^ 2 + s.vz ^ 2)) ∧
    (∀ (prevX prevZ : ℚ) (s : BatState) (l1 : List WallSeg) (seg : WallSeg)
        (l2 : List WallSeg) (ip : ℚ × ℚ),
      (∀ sg ∈ l1,
        getLineIntersection prevX prevZ s.x s.z sg.x1 sg.z1 sg.x2 sg.z2 = none) →
      getLineIntersection prevX prevZ s.x s.z seg.x1 seg.z1 seg.x2 seg.z2 = some ip →
      wallScan prevX prevZ s (l1 ++ seg :: l2) = wallApply s seg ip) := by
  refine ⟨fun wx wz s => by simp only [batWallGate], ?_, ?_, ?_⟩
  · intro s seg ip h
    exact wallApply_reflect s seg ip h
  · intro s seg ip hn h
    rw [wallApply_reflect s seg ip h]
    dsimp only
    linear_combination
      (49/25) * (s.vx * (segNormal seg).1 + s.vz * (segNormal seg).2) ^ 2 * hn
  · intro prevX prevZ s l1 seg l2 ip h1 h2
    exact wallScan_first prevX prevZ s l1 seg l2 ip h1 h2

/-- Witness for the C7 theorem: the gate equation at a state near the plate,
and the reflection record, the exact 0.7 speed ratio and the
first-segment-only scan on a concrete 3-4-5 fence segment hit head on. -/
theorem claim_C7_wall_reflection_witness :
    (batWallGate 0 0 c7GateState =
      if (batIntegrate 0 0 c7GateState).z > 60 ∧ 0 ≤ (batIntegrate 0 0 c7GateState).y ∧
          (batIntegrate 0 0 c7GateState).y ≤ WALL_HEIGHT
      then wallScan c7GateState.x c7GateState.z (batIntegrate 0 0 c7GateState) WALL_SEGMENTS
      else batIntegrate 0 0 c7GateState) ∧
    (wallApply c7State c7Seg (0, 100) = { c7State with
      vx := (c7State.vx - 2 * (c7State.vx * (segNormal c7Seg).1
        + c7State.vz * (segNormal c7Seg).2) * (segNormal c7Seg).1) * (7/10),
      vz := (c7State.vz - 2 * (c7State.vx * (segNormal c7Seg).1
        + c7State.vz * (segNormal c7Seg).2) * (segNormal c7Seg).2) * (7/10),
      vy := c7State.vy * (8/10),
      x := ((0 : ℚ), (100 : ℚ)).1 + (segNormal c7Seg).1 * (1/5),
      z := ((0 : ℚ), (100 : ℚ)).2 + (segNormal c7Seg).2 * (1/5) }) ∧
    ((wallApply c7State c7Seg (0, 100)).vx ^ 2 + (wallApply c7State c7Seg (0, 100)).vz ^ 2
      = (49/100) * (c7State.vx ^ 2 + c7State.vz ^ 2)) ∧
    (wallScan 0 95 c7State ([] ++ c7Seg :: []) = wallApply c7State c7Seg (0, 100)) :=
  ⟨claim_C7_wall_reflection.1 0 0 c7GateState,
   claim_C7_wall_reflection.2.1 c7State c7Seg (0, 100) (by decide),
   claim_C7_wall_reflection.2.2.1 c7State c7Seg (0, 100) (by decide) (by decide),
   claim_C7_wall_reflection.2.2.2 0 95 c7State [] c7Seg [] (0, 100)
     (fun sg hsg => absurd hsg (List.not_mem_nil sg)) (by decide)⟩

/-- Rat.floor agrees with the floor of the FloorRing instance of ℚ. -/
theorem rat_floor_eq (q : ℚ) : Rat.floor q = ⌊q⌋ := rfl

/-- fpRound written with division instead of mkRat. -/
theorem fpRound_eq (q : ℚ) : fpRound q = (⌊q * prec + 1/2⌋ : ℚ) / prec := by
  unfold fpRound
  rw [rat_floor_eq, Rat.mkRat_eq_div]
  norm_num [prec]

/-- Rounding to the grid is monotone. -/
theorem fpRound_mono {p q : ℚ} (h : p ≤ q) : fpRound p ≤ fpRound q := by
  rw [fpRound_eq, fpRound_eq]
  have hp : (0:ℚ) < prec := by norm_num [prec]
  gcongr

/-- Grid points are fixed by the rounding. -/
theorem fpRound_int_fixed (k : ℤ) : fpRound ((k : ℚ) / prec) = (k : ℚ) / prec := by
  rw [fpRound_eq]
  have hp : (0:ℚ) < prec := by norm_num [prec]
  have harg : (k : ℚ) / prec * prec + 1/2 = (k : ℚ) + 1/2 := by field_simp
  rw [harg]
  have hfl : ⌊(k : ℚ) + 1/2⌋ = k := by
    rw [Int.floor_int_add]
    norm_num
  rw [hfl]

/-- Values fixed by the rounding are grid points. -/
theorem fpRound_fixed_form {v : ℚ} (hv : fpRound v = v) :
    ∃ k : ℤ, v = (k : ℚ) / prec :=
  ⟨⌊v * prec + 1/2⌋, ((fpRound_eq v).symm.trans hv).symm⟩

/-- myAbs of a grid point is fixed by the rounding. -/
theorem fpRound_fixed_myAbs {v : ℚ} (hv : fpRound v = v) :
    fpRound (myAbs v) = myAbs v ∧ fpRound (-(myAbs v)) = -(myAbs v) := by
  obtain ⟨k, hk⟩ := fpRound_fixed_form hv
  have hneg : -((k : ℚ) / prec) = ((-k : ℤ) : ℚ) / prec := by push_cast; ring
  unfold myAbs
  split_ifs with h
  · subst hk
    constructor
    · rw [hneg]
      exact fpRound_int_fixed (-k)
    · rw [neg_neg]
      exact fpRound_int_fixed k
  · subst hk
    constructor
    · exact fpRound_int_fixed k
    · rw [hneg]
      exact fpRound_int_fixed (-k)

/-- Rounding a value trapped between minus and plus the absolute value of a
grid point cannot leave that interval, so its square is bounded by the grid
point squared. -/
theorem fpRound_sq_le {v q : ℚ} (hv : fpRound v = v)
    (h1 : q ≤ myAbs v) (h2 : -(myAbs v) ≤ q) : (fpRound q) ^ 2 ≤ v ^ 2 := by
  obtain ⟨hfa, hfn⟩ := fpRound_fixed_myAbs hv
  have hub : fpRound q ≤ myAbs v := by
    calc fpRound q ≤ fpRound (myAbs v) := fpRound_mono h1
    _ = myAbs v := hfa
  have hlb : -(myAbs v) ≤ fpRound q := by
    calc -(myAbs v) = fpRound (-(myAbs v)) := hfn.symm
    _ ≤ fpRound q := fpRound_mono h2
  have hsq : (fpRound q) ^ 2 ≤ (myAbs v) ^ 2 := sq_le_sq' hlb hub
  have habs : (myAbs v) ^ 2 = v ^ 2 := by
    unfold myAbs
    split_ifs with h
    · ring
    · ring
  rw [habs] at hsq
  exact hsq

/-- Scaling by a factor between 0 and 1 keeps a value inside the interval
bounded by its absolute value. -/
theorem mul_factor_abs {v F : ℚ} (h0 : 0 ≤ F) (h1 : F ≤ 1) :
    v * F ≤ myAbs v ∧ -(myAbs v) ≤ v * F := by
  unfold myAbs
  split_ifs with h
  · constructor <;> nlinarith
  · constructor <;> nlinarith

/-- The square-root model never returns a negative value. -/
theorem mySqrt_nonneg (q : ℚ) : 0 ≤ mySqrt q := by
  rw [mySqrt, Rat.mkRat_eq_div, Int.ofNat_eq_natCast]
  positivity

/-- The vertical velocity after a windless integration step started on the
ground with zero vertical speed. -/
theorem batIntegrate_vy_roll (s : BatState) (hy : s.y = 0) (hvy : s.vy = 0) :
    (batIntegrate 0 0 s).vy = fpRound (-(981/10000)) := by
  simp only [batIntegrate]
  rw [hy, hvy]
  by_cases h1 : mySqrt ((s.vx - 0) ^ 2 + ((0:ℚ) - 0) ^ 2 + (s.vz - 0) ^ 2) > 1/10
  · rw [if_pos h1]
    dsimp only
    have hlift : ¬ ((0:ℚ) > 1/20) := by norm_num
    rw [if_neg hlift]
    norm_num [GRAVITY, dtB]
  · rw [if_neg h1]
    dsimp only
    norm_num [GRAVITY, dtB]

/-- The height after a windless integration step started on the ground with
zero vertical speed. -/
theorem batIntegrate_y_roll (s : BatState) (hy : s.y = 0) (hvy : s.vy = 0) :
    (batIntegrate 0 0 s).y = fpRound (fpRound (-(981/10000)) * dtB) := by
  simp only [batIntegrate]
  rw [hy, hvy]
  by_cases h1 : mySqrt ((s.vx - 0) ^ 2 + ((0:ℚ) - 0) ^ 2 + (s.vz - 0) ^ 2) > 1/10
  · rw [if_pos h1]
    dsimp only
    have hlift : ¬ ((0:ℚ) > 1/20) := by norm_num
    rw [if_neg hlift]
    norm_num [GRAVITY, dtB]
  · rw [if_neg h1]
    dsimp only
    norm_num [GRAVITY, dtB]

/-- Windless drag never increases the magnitude of the horizontal velocity
components of a grid state below the stability speed, rounding included. -/
theorem batIntegrate_vx_sq (s : BatState) (hy : s.y = 0) (hvy : s.vy = 0)
    (hgx : fpRound s.vx = s.vx)
    (hV : mySqrt (s.vx ^ 2 + s.vz ^ 2) ≤ 18000) :
    (batIntegrate 0 0 s).vx ^ 2 ≤ s.vx ^ 2 := by
  have hV0 : 0 ≤ mySqrt (s.vx ^ 2 + s.vz ^ 2) := mySqrt_nonneg _
  simp only [batIntegrate]
  rw [hy, hvy]
  have hVeq : mySqrt ((s.vx - 0) ^ 2 + ((0:ℚ) - 0) ^ 2 + (s.vz - 0) ^ 2)
      = mySqrt (s.vx ^ 2 + s.vz ^ 2) := congrArg mySqrt (by ring)
  rw [hVeq]
  by_cases h1 : mySqrt (s.vx ^ 2 + s.vz ^ 2) > 1/10
  · rw [if_pos h1]
    dsimp only
    set V := mySqrt (s.vx ^ 2 + s.vz ^ 2) with hVdef
    have hVne : V ≠ 0 := by
      intro h
      rw [h] at h1
      norm_num at h1
    have hKc : (0:ℚ) ≤ (1/2) * AIR_DENSITY * DRAG_COEFFICIENT * BALL_AREA / BALL_MASS * dtB := by
      decide
    have h18 : ((1/2) * AIR_DENSITY * DRAG_COEFFICIENT * BALL_AREA / BALL_MASS * dtB) * 18000 ≤ 1 := by
      decide
    have hcV : ((1/2) * AIR_DENSITY * DRAG_COEFFICIENT * BALL_AREA / BALL_MASS * dtB) * V ≤ 1 := by
      calc ((1/2) * AIR_DENSITY * DRAG_COEFFICIENT * BALL_AREA / BALL_MASS * dtB) * V
          ≤ ((1/2) * AIR_DENSITY * DRAG_COEFFICIENT * BALL_AREA / BALL_MASS * dtB) * 18000 := by
            exact mul_le_mul_of_nonneg_left hV hKc
      _ ≤ 1 := h18
    have hF0 : 0 ≤ 1 - ((1/2) * AIR_DENSITY * DRAG_COEFFICIENT * BALL_AREA / BALL_MASS * dtB) * V := by
      linarith
    have hF1 : 1 - ((1/2) * AIR_DENSITY * DRAG_COEFFICIENT * BALL_AREA / BALL_MASS * dtB) * V ≤ 1 := by
      nlinarith
    have harg : s.vx + -((1/2) * AIR_DENSITY * V ^ 2 * DRAG_COEFFICIENT * BALL_AREA / BALL_MASS)
          * ((s.vx - 0) / V) * dtB
        = s.vx * (1 - ((1/2) * AIR_DENSITY * DRAG_COEFFICIENT * BALL_AREA / BALL_MASS * dtB) * V) := by
      have hVV : V ^ 2 * V⁻¹ = V := by
        rw [sq, mul_assoc, mul_inv_cancel₀ hVne, mul_one]
      linear_combination
        (-(1/2) * AIR_DENSITY * DRAG_COEFFICIENT * BALL_AREA / BALL_MASS * dtB * s.vx) * hVV
    rw [harg]
    obtain ⟨hb1, hb2⟩ := mul_factor_abs (v := s.vx) hF0 hF1
    exact fpRound_sq_le hgx hb1 hb2
  · rw [if_neg h1]
    dsimp only
    have harg : s.vx + (0:ℚ) * dtB = s.vx := by ring
    rw [harg, hgx]

/-- The same bound for the z velocity component. -/
theorem batIntegrate_vz_sq (s : BatState) (hy : s.y = 0) (hvy : s.vy = 0)
    (hgz : fpRound s.vz = s.vz)
    (hV : mySqrt (s.vx ^ 2 + s.vz ^ 2) ≤ 18000) :
    (batIntegrate 0 0 s).vz ^ 2 ≤ s.vz ^ 2 := by
  have hV0 : 0 ≤ mySqrt (s.vx ^ 2 + s.vz ^ 2) := mySqrt_nonneg _
  simp only [batIntegrate]
  rw [hy, hvy]
  have hVeq : mySqrt ((s.vx - 0) ^ 2 + ((0:ℚ) - 0) ^ 2 + (s.vz - 0) ^ 2)
      = mySqrt (s.vx ^ 2 + s.vz ^ 2) := congrArg mySqrt (by ring)
  rw [hVeq]
  by_cases h1 : mySqrt (s.vx ^ 2 + s.vz ^ 2) > 1/10
  · rw [if_pos h1]
    dsimp only
    set V := mySqrt (s.vx ^ 2 + s.vz ^ 2) with hVdef
    have hVne : V ≠ 0 := by
      intro h
      rw [h] at h1
      norm_num at h1
    have hKc : (0:ℚ) ≤ (1/2) * AIR_DENSITY * DRAG_COEFFICIENT * BALL_AREA / BALL_MASS * dtB := by
      decide
    have h18 : ((1/2) * AIR_DENSITY * DRAG_COEFFICIENT * BALL_AREA / BALL_MASS * dtB) * 18000 ≤ 1 := by
      decide
    have hcV : ((1/2) * AIR_DENSITY * DRAG_COEFFICIENT * BALL_AREA / BALL_MASS * dtB) * V ≤ 1 := by
      calc ((1/2) * AIR_DENSITY * DRAG_COEFFICIENT * BALL_AREA / BALL_MASS * dtB) * V
          ≤ ((1/2) * AIR_DENSITY * DRAG_COEFFICIENT * BALL_AREA / BALL_MASS * dtB) * 18000 := by
            exact mul_le_mul_of_nonneg_left hV hKc
      _ ≤ 1 := h18
    have hF0 : 0 ≤ 1 - ((1/2) * AIR_DENSITY * DRAG_COEFFICIENT * BALL_AREA / BALL_MASS * dtB) * V := by
      linarith
    have hF1 : 1 - ((1/2) * AIR_DENSITY * DRAG_COEFFICIENT * BALL_AREA / BALL_MASS * dtB) * V ≤ 1 := by
      nlinarith
    have harg : s.vz + -((1/2) * AIR_DENSITY * V ^ 2 * DRAG_COEFFICIENT * BALL_AREA / BALL_MASS)
          * ((s.vz - 0) / V) * dtB
        = s.vz * (1 - ((1/2) * AIR_DENSITY * DRAG_COEFFICIENT * BALL_AREA / BALL_MASS * dtB) * V) := by
      have hVV : V ^ 2 * V⁻¹ = V := by
        rw [sq, mul_assoc, mul_inv_cancel₀ hVne, mul_one]
      linear_combination
        (-(1/2) * AIR_DENSITY * DRAG_COEFFICIENT * BALL_AREA / BALL_MASS * dtB * s.vz) * hVV
    rw [harg]
    obtain ⟨hb1, hb2⟩ := mul_factor_abs (v := s.vz) hF0 hF1
    exact fpRound_sq_le hgz hb1 hb2
  · rw [if_neg h1]
    dsimp only
    have harg : s.vz + (0:ℚ) * dtB = s.vz := by ring
    rw [harg, hgz]

/-- The ground handler never increases the horizontal speed. -/
theorem groundPhase_speed (s : BatState) :
    (groundPhase s).1.vx ^ 2 + (groundPhase s).1.vz ^ 2 ≤ s.vx ^ 2 + s.vz ^ 2 := by
  simp only [groundPhase]
  split_ifs with hy hg hvy hsp hstop hvy2 hsp2 hstop2
  all_goals dsimp only
  all_goals try (first
    | exact le_refl _
    | nlinarith [sq_nonneg s.vx, sq_nonneg s.vz]
    | (norm_num [FRICTION_BOUNCE]; nlinarith [sq_nonneg s.vx, sq_nonneg s.vz]))
  all_goals set M := mySqrt (s.vx ^ 2 + s.vz ^ 2) with hM
  all_goals (
    have hq : M > 0 := by assumption
    have hnst : ¬ M ≤ MU_ROLLING * GRAVITY * dtB + STOP_VELOCITY := by assumption
    have hst : MU_ROLLING * GRAVITY * dtB + STOP_VELOCITY < M := not_le.mp hnst
    have hl0 : (0:ℚ) ≤ MU_ROLLING * GRAVITY * dtB := by norm_num [MU_ROLLING, GRAVITY, dtB]
    have hs0 : (0:ℚ) ≤ STOP_VELOCITY := by norm_num [STOP_VELOCITY]
    have hr0 : 0 ≤ (M - MU_ROLLING * GRAVITY * dtB) / M := by
      apply div_nonneg _ (le_of_lt hq)
      linarith
    have hr1 : (M - MU_ROLLING * GRAVITY * dtB) / M ≤ 1 := by
      rw [div_le_one hq]
      linarith
    have hr2 : ((M - MU_ROLLING * GRAVITY * dtB) / M) ^ 2 ≤ 1 := by nlinarith
    calc (s.vx * ((M - MU_ROLLING * GRAVITY * dtB) / M)) ^ 2
        + (s.vz * ((M - MU_ROLLING * GRAVITY * dtB) / M)) ^ 2
        = ((M - MU_ROLLING * GRAVITY * dtB) / M) ^ 2 * (s.vx ^ 2 + s.vz ^ 2) := by ring
      _ ≤ 1 * (s.vx ^ 2 + s.vz ^ 2) := mul_le_mul_of_nonneg_right hr2 (by positivity)
      _ = s.vx ^ 2 + s.vz ^ 2 := one_mul _)

/-- The rolling stop: with the vertical speed qualifying as rolling and the
horizontal speed positive but at most the per-step frictional loss plus the
stop floor, the ground handler zeroes the horizontal velocity and breaks. -/
theorem groundPhase_stop (s : BatState) (hy : s.y ≤ 0) (hvy : myAbs s.vy < 1)
    (hpos : mySqrt (s.vx ^ 2 + s.vz ^ 2) > 0)
    (hstop : mySqrt (s.vx ^ 2 + s.vz ^ 2) ≤ MU_ROLLING * GRAVITY * dtB + STOP_VELOCITY) :
    (groundPhase s).1.vx = 0 ∧ (groundPhase s).1.vz = 0 ∧ (groundPhase s).2 = true := by
  simp only [groundPhase]
  rw [if_pos hy]
  split_ifs with hg
  all_goals exact ⟨rfl, rfl, rfl⟩

/-- One full windless batting step from a grounded rolling grid state never
increases the horizontal speed. -/
theorem rollStep_speed (s : BatState) (hy : s.y = 0) (hvy : s.vy = 0)
    (hgx : fpRound s.vx = s.vx) (hgz : fpRound s.vz = s.vz)
    (hV : mySqrt (s.vx ^ 2 + s.vz ^ 2) ≤ 18000) :
    (batStepState 0 0 s).vx ^ 2 + (batStepState 0 0 s).vz ^ 2 ≤ s.vx ^ 2 + s.vz ^ 2 := by
  have hy1 : (batIntegrate 0 0 s).y < 0 := by
    rw [batIntegrate_y_roll s hy hvy]
    decide
  have hgate : batWallGate 0 0 s = batIntegrate 0 0 s := by
    simp only [batWallGate]
    rw [if_neg]
    intro h
    exact absurd h.2.1 (by linarith)
  have hb : batStepState 0 0 s = (groundPhase (batIntegrate 0 0 s)).1 := by
    unfold batStepState batStep
    rw [hgate]
  rw [hb]
  calc (groundPhase (batIntegrate 0 0 s)).1.vx ^ 2
      + (groundPhase (batIntegrate 0 0 s)).1.vz ^ 2
      ≤ (batIntegrate 0 0 s).vx ^ 2 + (batIntegrate 0 0 s).vz ^ 2 :=
        groundPhase_speed _
    _ ≤ s.vx ^ 2 + s.vz ^ 2 := by
        have h1 := batIntegrate_vx_sq s hy hvy hgx hV
        have h2 := batIntegrate_vz_sq s hy hvy hgz hV
        linarith

/-- C8: counterexample.  A ball already rolling on the ground (y = 0, vy = 0)
with a 30 m/s tailwind gains horizontal speed over one loop step that stays
in the rolling regime (no break), refuting the claim that the rolling speed
is non-increasing from step to step. -/
theorem claim_C8_counterexample :
    c8State.y = 0 ∧ c8State.vy = 0 ∧ c8State.hasHitGround = true ∧
    (batStep 0 30 c8State).2 = false ∧
    c8State.vx ^ 2 + c8State.vz ^ 2 <
      (batStepState 0 30 c8State).vx ^ 2 + (batStepState 0 30 c8State).vz ^ 2 := by
  decide

/-- C8 (amended): without wind a grounded rolling grid state never gains
horizontal speed over a full loop step, and the loop breaks with the
velocity zeroed as soon as the horizontal speed is positive but at most the
per-step frictional loss plus the 0.1 m/s stop floor. -/
theorem claim_C8_amended :
    (∀ s : BatState, s.y = 0 → s.vy = 0 →
        fpRound s.vx = s.vx → fpRound s.vz = s.vz →
        mySqrt (s.vx ^ 2 + s.vz ^ 2) ≤ 18000 →
        (batStepState 0 0 s).vx ^ 2 + (batStepState 0 0 s).vz ^ 2
          ≤ s.vx ^ 2 + s.vz ^ 2) ∧
    (∀ s : BatState, s.y ≤ 0 → myAbs s.vy < 1 →
        mySqrt (s.vx ^ 2 + s.vz ^ 2) > 0 →
        mySqrt (s.vx ^ 2 + s.vz ^ 2) ≤ MU_ROLLING * GRAVITY * dtB + STOP_VELOCITY →
        (groundPhase s).1.vx = 0 ∧ (groundPhase s).1.vz = 0 ∧
          (groundPhase s).2 = true) :=
  ⟨fun s hy hvy hgx hgz hV => rollStep_speed s hy hvy hgx hgz hV,
   fun s hy hvy hpos hstop => groundPhase_stop s hy hvy hpos hstop⟩

/-- Witness for the amended C8 theorem: a unit-speed roller loses speed over
a windless step, and a roller below the stopping speed is stopped with the
break flag set. -/
theorem claim_C8_amended_witness :
    ((batStepState 0 0 c8wRoll).vx ^ 2 + (batStepState 0 0 c8wRoll).vz ^ 2
      ≤ c8wRoll.vx ^ 2 + c8wRoll.vz ^ 2) ∧
    ((groundPhase c8wStop).1.vx = 0 ∧ (groundPhase c8wStop).1.vz = 0 ∧
      (groundPhase c8wStop).2 = true) :=
  ⟨claim_C8_amended.1 c8wRoll (by decide) (by decide) (by decide) (by decide)
      (by decide),
   claim_C8_amended.2 c8wStop (by decide) (by decide) (by decide) (by decide)⟩

/-- C3: counterexample.  For c3Params the stored angles produce a plate
crossing, yet re-running the model with the angles the solver returns for
that very crossing misses the target y by far more than 0.5 mm: the
fixed-gain corrector diverges at this release distance. -/
theorem claim_C3_counterexample :
    (calculatePitchTrajectory c3Params).plateCrossing.isSome = true ∧
    c3rr.plateCrossing.isSome = true ∧
    myAbs ((c3rr.plateCrossing.getD (0, 0)).2 - c3tg.2) ≥ 1/2000 := by
  decide

/-- For non-degenerate velocity the forward model always reports a plate
value (the crossing, by construction some, hides the final-position
fallback). -/
theorem plate_some (p : PitchingParams) (hv : ¬ p.velocity ≤ 1/10) :
    ∃ c, ((calculatePitchTrajectory p).plateCrossing.orElse
      (fun _ => (calculatePitchTrajectory p).finalPosition)) = some c := by
  have htot := pitchRunAux_total (pitchOmega p) p.spinDirection 2501 (pitchInit p)
    (by rw [pitchInit_t]; push_cast; norm_num [dtP])
  rw [Option.isSome_iff_exists] at htot
  obtain ⟨out, hout⟩ := htot
  obtain ⟨pts, fs⟩ := out
  have hout2 : pitchRunAux (pitchOmega p) p.spinDirection pitchFuel (pitchInit p)
      = some (pts, fs) := hout
  refine ⟨(fs.plateCrossing).getD (fs.x, fs.y), ?_⟩
  unfold calculatePitchTrajectory
  rw [if_neg hv, hout2]
  rfl

/-- One-step equation of the solver loop. -/
theorem solveLoop_succ (p : PitchingParams) (tx ty : ℚ) (n : Nat) (g1 g2 : ℚ) :
    solveLoop p tx ty (n + 1) g1 g2 =
      (match ((calculatePitchTrajectory
            { p with hAngle := g1, vAngle := g2 }).plateCrossing.orElse
          (fun _ => (calculatePitchTrajectory
            { p with hAngle := g1, vAngle := g2 }).finalPosition)) with
       | none => (g1, g2)
       | some crossing =>
         if myAbs (tx - crossing.1) < 1/2000 ∧ myAbs (ty - crossing.2) < 1/2000
         then (g1, g2)
         else solveLoop p tx ty n (g1 + (tx - crossing.1) * (5/2))
           (g2 + (ty - crossing.2) * (5/2))) := rfl

/-- One-step equation of the exit-free iteration. -/
theorem solveSteps_succ (p : PitchingParams) (tx ty : ℚ) (n : Nat) (g1 g2 : ℚ) :
    solveSteps p tx ty (n + 1) g1 g2 =
      (match ((calculatePitchTrajectory
            { p with hAngle := g1, vAngle := g2 }).plateCrossing.orElse
          (fun _ => (calculatePitchTrajectory
            { p with hAngle := g1, vAngle := g2 }).finalPosition)) with
       | none => (g1, g2)
       | some crossing =>
         solveSteps p tx ty n (g1 + (tx - crossing.1) * (5/2))
           (g2 + (ty - crossing.2) * (5/2))) := rfl

/-- The solver loop either stops at angles it has just verified to hit the
target within half a millimetre, or runs all its corrections unchecked. -/
theorem solveLoop_cases (p : PitchingParams) (tx ty : ℚ) (hv : ¬ p.velocity ≤ 1/10) :
    ∀ (n : Nat) (g1 g2 : ℚ),
      (∃ c, ((calculatePitchTrajectory { p with
            hAngle := (solveLoop p tx ty n g1 g2).1,
            vAngle := (solveLoop p tx ty n g1 g2).2 }).plateCrossing.orElse
          (fun _ => (calculatePitchTrajectory { p with
            hAngle := (solveLoop p tx ty n g1 g2).1,
            vAngle := (solveLoop p tx ty n g1 g2).2 }).finalPosition)) = some c ∧
        myAbs (tx - c.1) < 1/2000 ∧ myAbs (ty - c.2) < 1/2000) ∨
      solveLoop p tx ty n g1 g2 = solveSteps p tx ty n g1 g2 := by
  intro n
  induction n with
  | zero =>
    intro g1 g2
    right
    rfl
  | succ n ih =>
    intro g1 g2
    have hvp : ¬ ({ p with hAngle := g1, vAngle := g2 } : PitchingParams).velocity
        ≤ 1/10 := hv
    obtain ⟨c, hc⟩ := plate_some { p with hAngle := g1, vAngle := g2 } hvp
    by_cases htol : myAbs (tx - c.1) < 1/2000 ∧ myAbs (ty - c.2) < 1/2000
    · left
      have hstep : solveLoop p tx ty (n + 1) g1 g2 = (g1, g2) := by
        rw [solveLoop_succ, hc]
        dsimp only
        rw [if_pos htol]
      rw [hstep]
      exact ⟨c, hc, htol.1, htol.2⟩
    · have hstep : solveLoop p tx ty (n + 1) g1 g2
          = solveLoop p tx ty n (g1 + (tx - c.1) * (5/2)) (g2 + (ty - c.2) * (5/2)) := by
        rw [solveLoop_succ, hc]
        dsimp only
        rw [if_neg htol]
      have hstep2 : solveSteps p tx ty (n + 1) g1 g2
          = solveSteps p tx ty n (g1 + (tx - c.1) * (5/2)) (g2 + (ty - c.2) * (5/2)) := by
        rw [solveSteps_succ, hc]
      rcases ih (g1 + (tx - c.1) * (5/2)) (g2 + (ty - c.2) * (5/2)) with hL | hR
      · left
        rw [hstep]
        exact hL
      · right
        rw [hstep, hstep2, hR]

/-- C3 (amended): for non-degenerate velocity the solver either returns
angles whose forward run it has just verified to cross the plate within half
a millimetre of the target in both coordinates, or it returns the result of
its ten fixed-gain corrections with no accuracy guarantee at all. -/
theorem claim_C3_amended :
    ∀ (p : PitchingParams) (tx ty : ℚ), ¬ p.velocity ≤ 1/10 →
      (∃ c, ((calculatePitchTrajectory { p with
            hAngle := (solvePitchAngles p tx ty).1,
            vAngle := (solvePitchAngles p tx ty).2 }).plateCrossing.orElse
          (fun _ => (calculatePitchTrajectory { p with
            hAngle := (solvePitchAngles p tx ty).1,
            vAngle := (solvePitchAngles p tx ty).2 }).finalPosition)) = some c ∧
        myAbs (tx - c.1) < 1/2000 ∧ myAbs (ty - c.2) < 1/2000) ∨
      solvePitchAngles p tx ty = solveSteps p tx ty 10 (guessH p tx) (guessV p ty) := by
  intro p tx ty hv
  have hs : solvePitchAngles p tx ty
      = solveLoop p tx ty 10 (guessH p tx) (guessV p ty) := by
    unfold solvePitchAngles
    rw [if_neg hv]
  rw [hs]
  exact solveLoop_cases p tx ty hv 10 (guessH p tx) (guessV p ty)

/-- Witness for the amended C3 theorem at a concrete fastball and target. -/
theorem claim_C3_amended_witness :
    (∃ c, ((calculatePitchTrajectory { c3wParams with
          hAngle := (solvePitchAngles c3wParams 0 1).1,
          vAngle := (solvePitchAngles c3wParams 0 1).2 }).plateCrossing.orElse
        (fun _ => (calculatePitchTrajectory { c3wParams with
          hAngle := (solvePitchAngles c3wParams 0 1).1,
          vAngle := (solvePitchAngles c3wParams 0 1).2 }).finalPosition)) = some c ∧
      myAbs ((0:ℚ) - c.1) < 1/2000 ∧ myAbs ((1:ℚ) - c.2) < 1/2000) ∨
    solvePitchAngles c3wParams 0 1
      = solveSteps c3wParams 0 1 10 (guessH c3wParams 0) (guessV c3wParams 1) :=
  claim_C3_amended c3wParams 0 1 (by decide)

end Baseball
